import Mathlib

/-!
Verification of the streaming chat-completion core of this repository.

The development shallowly embeds, from the source files:
- `src/api/domain/entities/tool.py` (`ToolCall`, `ToolResult` with their
  construction-time validation),
- `src/api/domain/entities/events.py` (the `StreamEvent` variants and
  `UsageStats`),
- `src/api/domain/ports/llm_provider.py` (the low-level `LLMEvent` stream),
- `src/api/application/use_cases/stream_chat_completion.py`
  (`StreamChatCompletionUseCase.execute`, the orchestration state machine),
- `src/api/infrastructure/tools/tool_executor.py` (`ToolExecutor.execute`),
- `src/api/infrastructure/protocol/vercel_stream.py`
  (`VercelStreamProtocolAdapter.format_event`).

Structured argument data (Python `dict`/`list`/`str`/`int`/`bool`/`None`,
produced by `json.loads` and consumed by `json.dumps`) is modelled by the
`Jx` type below, together with an executable decoder `Jx.loads` and encoder
`Jx.dumps` that follow the Python `json` module on that value domain
(default separators `", "` and `": "`, `ensure_ascii` escaping; numbers are
modelled as integers). Python's asynchronous generator is modelled as a
function from the list of provider events to the list of yielded domain
events paired with the outcome (normal completion or the uncaught exception
that aborted the generator).
-/

namespace ChatCore

/-- Structured argument data: the value domain shared by `json.loads` and
`json.dumps` in this code base (numbers restricted to integers). -/
inductive Jx where
  | null
  | bool (b : Bool)
  | num (n : Int)
  | str (s : String)
  | arr (elements : List Jx)
  | obj (members : List (String × Jx))

mutual

/-- Decidable equality on `Jx` (the nested `List` fields rule out
`deriving`). -/
def Jx.decEq : (a b : Jx) → Decidable (a = b)
  | .null, .null => isTrue rfl
  | .bool x, .bool y =>
    if h : x = y then isTrue (by rw [h])
    else isFalse (fun hh => by injection hh; contradiction)
  | .num x, .num y =>
    if h : x = y then isTrue (by rw [h])
    else isFalse (fun hh => by injection hh; contradiction)
  | .str x, .str y =>
    if h : x = y then isTrue (by rw [h])
    else isFalse (fun hh => by injection hh; contradiction)
  | .arr x, .arr y =>
    match Jx.decEqList x y with
    | isTrue h => isTrue (by rw [h])
    | isFalse h => isFalse (fun hh => by injection hh; contradiction)
  | .obj x, .obj y =>
    match Jx.decEqMembers x y with
    | isTrue h => isTrue (by rw [h])
    | isFalse h => isFalse (fun hh => by injection hh; contradiction)
  | .null, .bool _ | .null, .num _ | .null, .str _ | .null, .arr _
  | .null, .obj _ | .bool _, .null | .bool _, .num _ | .bool _, .str _
  | .bool _, .arr _ | .bool _, .obj _ | .num _, .null | .num _, .bool _
  | .num _, .str _ | .num _, .arr _ | .num _, .obj _ | .str _, .null
  | .str _, .bool _ | .str _, .num _ | .str _, .arr _ | .str _, .obj _
  | .arr _, .null | .arr _, .bool _ | .arr _, .num _ | .arr _, .str _
  | .arr _, .obj _ | .obj _, .null | .obj _, .bool _ | .obj _, .num _
  | .obj _, .str _ | .obj _, .arr _ => isFalse (fun h => Jx.noConfusion h)

/-- Decidable equality on lists of `Jx`. -/
def Jx.decEqList : (xs ys : List Jx) → Decidable (xs = ys)
  | [], [] => isTrue rfl
  | [], _ :: _ => isFalse (fun h => List.noConfusion h)
  | _ :: _, [] => isFalse (fun h => List.noConfusion h)
  | x :: xs, y :: ys =>
    match Jx.decEq x y with
    | isFalse h => isFalse (fun hh => by injection hh; contradiction)
    | isTrue h1 =>
      match Jx.decEqList xs ys with
      | isTrue h2 => isTrue (by rw [h1, h2])
      | isFalse h => isFalse (fun hh => by injection hh; contradiction)

/-- Decidable equality on object member lists. -/
def Jx.decEqMembers : (xs ys : List (String × Jx)) → Decidable (xs = ys)
  | [], [] => isTrue rfl
  | [], _ :: _ => isFalse (fun h => List.noConfusion h)
  | _ :: _, [] => isFalse (fun h => List.noConfusion h)
  | (k, v) :: xs, (k2, v2) :: ys =>
    if hk : k = k2 then
      match Jx.decEq v v2 with
      | isFalse h => isFalse (fun hh => by
          injection hh with h1 h2; exact h (congrArg Prod.snd h1))
      | isTrue hv =>
        match Jx.decEqMembers xs ys with
        | isTrue h2 => isTrue (by rw [hk, hv, h2])
        | isFalse h => isFalse (fun hh => by injection hh; contradiction)
    else isFalse (fun hh => by
        injection hh with h1 h2; exact hk (congrArg Prod.fst h1))

end

instance : DecidableEq Jx := Jx.decEq

/-! ### Character-level helpers for the JSON codec -/

/-- The four whitespace characters `json.loads` skips. -/
def isJsonWs (c : Char) : Bool := c == ' ' || c == '\t' || c == '\n' || c == '\r'

/-- Drop leading JSON whitespace. -/
def dropWs (cs : List Char) : List Char := cs.dropWhile isJsonWs

/-- Decimal digit test. -/
def isDig (c : Char) : Bool := '0' ≤ c && c ≤ '9'

/-- The longest leading run of decimal digits, and the remainder. -/
def splitDigits : List Char → List Char × List Char
  | [] => ([], [])
  | c :: cs =>
    if isDig c then
      let (ds, r) := splitDigits cs
      (c :: ds, r)
    else ([], c :: cs)

/-- Numeric value of a digit run (most significant first). -/
def digitsVal (ds : List Char) : Nat :=
  ds.foldl (fun a c => a * 10 + (c.toNat - 48)) 0

/-- The decimal digit character for `d < 10`. -/
def decDigit (d : Nat) : Char :=
  match d with
  | 0 => '0' | 1 => '1' | 2 => '2' | 3 => '3' | 4 => '4'
  | 5 => '5' | 6 => '6' | 7 => '7' | 8 => '8' | _ => '9'

/-- Decimal digits of a natural number, most significant first (`str(n)`). -/
def natChars (n : Nat) : List Char :=
  if _h : n < 10 then [decDigit n]
  else natChars (n / 10) ++ [decDigit (n % 10)]
decreasing_by exact Nat.div_lt_self (by omega) (by omega)

/-- `str(i)` for a Python integer. -/
def intChars (i : Int) : List Char :=
  if i < 0 then '-' :: natChars i.natAbs else natChars i.toNat

/-- Value of one hexadecimal digit character, upper or lower case. -/
def hexVal (c : Char) : Option Nat :=
  if '0' ≤ c && c ≤ '9' then some (c.toNat - 48)
  else if 'a' ≤ c && c ≤ 'f' then some (c.toNat - 87)
  else if 'A' ≤ c && c ≤ 'F' then some (c.toNat - 55)
  else none

/-- The lowercase hexadecimal digit for `d < 16` (as `json.dumps` emits). -/
def hexDigit (d : Nat) : Char :=
  match d with
  | 0 => '0' | 1 => '1' | 2 => '2' | 3 => '3' | 4 => '4'
  | 5 => '5' | 6 => '6' | 7 => '7' | 8 => '8' | 9 => '9'
  | 10 => 'a' | 11 => 'b' | 12 => 'c' | 13 => 'd' | 14 => 'e' | _ => 'f'

/-- The four-digit hexadecimal form used by `\uXXXX` escapes. -/
def hex4 (n : Nat) : List Char :=
  [hexDigit (n / 4096 % 16), hexDigit (n / 256 % 16),
   hexDigit (n / 16 % 16), hexDigit (n % 16)]

/-- `json.dumps` escaping of one character under `ensure_ascii` (the
default): quote, backslash and the five short control escapes get two-char
forms; all other characters outside `0x20`-`0x7e` become `\uXXXX`, with a
code point past `0xffff` split into a UTF-16 surrogate pair of two such
escapes, as CPython's encoder does. -/
def escChar (c : Char) : List Char :=
  if c = '"' then ['\\', '"']
  else if c = '\\' then ['\\', '\\']
  else if c = '\n' then ['\\', 'n']
  else if c = '\t' then ['\\', 't']
  else if c = '\r' then ['\\', 'r']
  else if c.toNat = 8 then ['\\', 'b']
  else if c.toNat = 12 then ['\\', 'f']
  else if c.toNat < 0x20 || 0x7e < c.toNat then
    if c.toNat < 0x10000 then '\\' :: 'u' :: hex4 c.toNat
    else
      ('\\' :: 'u' :: hex4 (0xd800 + (c.toNat - 0x10000) / 0x400))
        ++ ('\\' :: 'u' :: hex4 (0xdc00 + (c.toNat - 0x10000) % 0x400))
  else [c]

/-- `json.dumps` escaping of a whole string body. -/
def escBody (cs : List Char) : List Char := cs.flatMap escChar

mutual

/-- Decode a JSON string body after its opening quote, in the strict mode
`json.loads` uses: raw control characters are rejected, the short escapes
and `\uXXXX` are decoded, and a `\uXXXX` high surrogate followed by a
`\uXXXX` low surrogate is recombined into one code point, as CPython's
scanner does. Returns the decoded characters and the input remaining after
the closing quote. -/
def readStringBody : List Char → Option (List Char × List Char)
  | [] => none
  | c :: rest =>
    if c = '"' then some ([], rest)
    else if c = '\\' then
      match rest with
      | [] => none
      | e :: rest2 =>
        if e = 'u' then readHighU rest2
        else
          let short : Option Char :=
            if e = '"' then some '"'
            else if e = '\\' then some '\\'
            else if e = '/' then some '/'
            else if e = 'n' then some '\n'
            else if e = 't' then some '\t'
            else if e = 'r' then some '\r'
            else if e = 'b' then some (Char.ofNat 8)
            else if e = 'f' then some (Char.ofNat 12)
            else none
          match short with
          | some d => (readStringBody rest2).map (fun p => (d :: p.1, p.2))
          | none => none
    else if c.toNat < 0x20 then none
    else (readStringBody rest).map (fun p => (c :: p.1, p.2))

/-- The four hex digits of a `\uXXXX` escape (after the `\u`): invalid hex
is an error; a value in the high-surrogate range looks ahead for a low
surrogate to join; anything else stands alone (`Char.ofNat` collapses a
code point Lean's `Char` cannot carry, the one representation boundary of
the model: a lone surrogate escape is not a Unicode scalar value). -/
def readHighU : List Char → Option (List Char × List Char)
  | h1 :: h2 :: h3 :: h4 :: rest3 =>
    match hexVal h1, hexVal h2, hexVal h3, hexVal h4 with
    | some a, some b, some c2, some d =>
      let u1 := ((a * 16 + b) * 16 + c2) * 16 + d
      let lone : Option (List Char × List Char) :=
        (readStringBody rest3).map (fun p => (Char.ofNat u1 :: p.1, p.2))
      if 0xd800 ≤ u1 ∧ u1 < 0xdc00 then readLowU u1 lone rest3
      else lone
    | _, _, _, _ => none
  | _ => none

/-- Look-ahead after a high surrogate `u1`: a `\uXXXX` escape with a
low-surrogate value joins with `u1` into one astral code point and scanning
resumes after it; valid hex that is no low surrogate keeps `u1` alone and
rescans from the second escape (the `lone` continuation); invalid hex in
the second escape is an error, and anything but `\u` keeps `u1` alone. -/
def readLowU (u1 : Nat) (lone : Option (List Char × List Char)) :
    List Char → Option (List Char × List Char)
  | b1 :: b2 :: h5 :: h6 :: h7 :: h8 :: rest4 =>
    if b1 = '\\' ∧ b2 = 'u' then
      match hexVal h5, hexVal h6, hexVal h7, hexVal h8 with
      | some a2, some b2v, some c3, some d2 =>
        let u2 := ((a2 * 16 + b2v) * 16 + c3) * 16 + d2
        if 0xdc00 ≤ u2 ∧ u2 < 0xe000 then
          (readStringBody rest4).map
            (fun p => (Char.ofNat (0x10000 + (u1 - 0xd800) * 0x400
                + (u2 - 0xdc00)) :: p.1, p.2))
        else lone
      | _, _, _, _ => none
    else lone
  | _ => lone

end

example : escChar (Char.ofNat 0x1f600)
    = ['\\', 'u', 'd', '8', '3', 'd', '\\', 'u', 'd', 'e', '0', '0'] := by decide
example : readStringBody ('\\' :: 'u' :: 'd' :: '8' :: '3' :: 'd'
      :: '\\' :: 'u' :: 'd' :: 'e' :: '0' :: '0' :: '"' :: [])
    = some ([Char.ofNat 0x1f600], []) := by decide

/-- Decode an integer literal (optional minus sign, then digits). -/
def readNumber : List Char → Option (Jx × List Char)
  | [] => none
  | c :: rest =>
    if c = '-' then
      let (ds, r) := splitDigits rest
      if ds = [] then none else some (.num (-(digitsVal ds : Int)), r)
    else
      let (ds, r) := splitDigits (c :: rest)
      if ds = [] then none else some (.num ((digitsVal ds : Int)), r)

mutual

/-- Decode one JSON value at the head of the input (no leading whitespace).
Fuel bounds the recursion; `Jx.loads` supplies more fuel than any input can
consume. -/
def readValue : Nat → List Char → Option (Jx × List Char)
  | 0, _ => none
  | fuel + 1, cs =>
    match cs with
    | [] => none
    | c :: rest =>
      if c = '"' then
        (readStringBody rest).map (fun p => (.str (String.mk p.1), p.2))
      else if c = '[' then
        match rest with
        | [] => none
        | c2 :: r2 =>
          if c2 = ']' then some (.arr [], r2)
          else (readElements fuel (c2 :: r2)).map (fun p => (.arr p.1, p.2))
      else if c = '{' then
        match rest with
        | [] => none
        | c2 :: r2 =>
          if c2 = '}' then some (.obj [], r2)
          else (readMembers fuel (c2 :: r2)).map (fun p => (.obj p.1, p.2))
      else if c = 't' then
        match rest with
        | 'r' :: 'u' :: 'e' :: r => some (.bool true, r)
        | _ => none
      else if c = 'f' then
        match rest with
        | 'a' :: 'l' :: 's' :: 'e' :: r => some (.bool false, r)
        | _ => none
      else if c = 'n' then
        match rest with
        | 'u' :: 'l' :: 'l' :: r => some (.null, r)
        | _ => none
      else readNumber (c :: rest)

/-- Decode one or more comma-separated array elements and the closing `]`.
The empty array is handled in `readValue`. -/
def readElements : Nat → List Char → Option (List Jx × List Char)
  | 0, _ => none
  | fuel + 1, cs =>
    match readValue fuel cs with
    | none => none
    | some (v, r) =>
      match r with
      | ',' :: r2 => (readElements fuel (dropWs r2)).map (fun p => (v :: p.1, p.2))
      | ']' :: r2 => some ([v], r2)
      | _ => none

/-- Decode one or more comma-separated object members and the closing
brace. The empty object is handled in `readValue`. -/
def readMembers : Nat → List Char → Option (List (String × Jx) × List Char)
  | 0, _ => none
  | fuel + 1, cs =>
    match cs with
    | '"' :: rest =>
      match readStringBody rest with
      | none => none
      | some (key, r1) =>
        match r1 with
        | ':' :: r2 =>
          match readValue fuel (dropWs r2) with
          | none => none
          | some (v, r3) =>
            match r3 with
            | ',' :: r4 =>
              (readMembers fuel (dropWs r4)).map
                (fun p => ((String.mk key, v) :: p.1, p.2))
            | '}' :: r4 => some ([(String.mk key, v)], r4)
            | _ => none
        | _ => none
    | _ => none

end

/-- `json.loads`: decode a complete document, allowing surrounding
whitespace and rejecting trailing garbage. -/
def Jx.loads (s : String) : Option Jx :=
  let cs := dropWs s.data
  match readValue (cs.length + 1) cs with
  | some (v, r) => if dropWs r = [] then some v else none
  | none => none

mutual

/-- `json.dumps` with the default separators `", "` and `": "` (character
level). -/
def dumpChars : Jx → List Char
  | .null => 'n' :: 'u' :: "ll".data
  | .bool b => if b then 't' :: 'r' :: "ue".data else 'f' :: 'a' :: "lse".data
  | .num n => intChars n
  | .str s => '"' :: escBody s.data ++ ['"']
  | .arr [] => ['[', ']']
  | .arr (x :: xs) => '[' :: dumpChars x ++ dumpElements xs ++ [']']
  | .obj [] => ['{', '}']
  | .obj ((k, v) :: ms) =>
    '{' :: '"' :: escBody k.data ++ '"' :: ':' :: ' ' :: dumpChars v
      ++ dumpMembers ms ++ ['}']

/-- The remaining elements of a non-empty array, each preceded by `", "`. -/
def dumpElements : List Jx → List Char
  | [] => []
  | x :: xs => ',' :: ' ' :: dumpChars x ++ dumpElements xs

/-- The remaining members of a non-empty object, each preceded by `", "`. -/
def dumpMembers : List (String × Jx) → List Char
  | [] => []
  | (k, v) :: ms =>
    ',' :: ' ' :: '"' :: escBody k.data ++ '"' :: ':' :: ' ' :: dumpChars v
      ++ dumpMembers ms

end

/-- `json.dumps` as a string. -/
def Jx.dumps (j : Jx) : String := String.mk (dumpChars j)

example : Jx.dumps (.obj [("a", .num (-3)), ("b", .arr [.null, .str "x"])])
    = "\x7b\"a\": -3, \"b\": [null, \"x\"]\x7d" := by
  simp [Jx.dumps, dumpChars, dumpMembers, dumpElements, escBody, escChar, intChars, natChars, decDigit]
example : Jx.loads (Jx.dumps (.obj [("a", .num (-3))])) = some (.obj [("a", .num (-3))]) := by
  have h : Jx.dumps (.obj [("a", .num (-3))]) = "\x7b\"a\": -3\x7d" := by
    simp [Jx.dumps, dumpChars, dumpMembers, escBody, escChar, intChars, natChars, decDigit]
  rw [h]; rfl

/-! ### Domain entities (`src/api/domain/entities/tool.py`, `events.py`) -/

/-- `ToolCall` (frozen dataclass): a tool invocation with parsed arguments. -/
structure ToolCall where
  id : String
  name : String
  arguments : Jx
deriving DecidableEq

/-- `ToolCall.__post_init__` validation: construction raises `ValueError` on
an empty id or an empty name. -/
def ToolCall.make (id name : String) (arguments : Jx) : Except String ToolCall :=
  if id = "" then .error "ToolCall id cannot be empty"
  else if name = "" then .error "ToolCall name cannot be empty"
  else .ok ⟨id, name, arguments⟩

/-- `ToolResult` (frozen dataclass): a tool execution result. -/
structure ToolResult where
  call_id : String
  name : String
  result : Jx
deriving DecidableEq

/-- `ToolResult.__post_init__` validation: construction raises `ValueError`
only on an empty call_id; the name is not checked. -/
def ToolResult.make (call_id name : String) (result : Jx) : Except String ToolResult :=
  if call_id = "" then .error "ToolResult call_id cannot be empty"
  else .ok ⟨call_id, name, result⟩

/-- `UsageStats` (frozen dataclass, no validation): token usage. -/
structure UsageStats where
  prompt_tokens : Int
  completion_tokens : Int
  total_tokens : Int
deriving DecidableEq

/-- The closed set of domain `StreamEvent` variants (`events.py`). -/
inductive StreamEvent where
  | textDelta (content : String)
  | toolCallStarted (call_id : String) (tool_name : String)
  | toolCallArgumentChunk (call_id : String) (arguments_chunk : String)
  | toolCallCompleted (tool_call : ToolCall)
  | toolResultAvailable (tool_result : ToolResult)
  | completionFinished (finish_reason : String) (usage : UsageStats)
deriving DecidableEq

/-! ### Provider events (`src/api/domain/ports/llm_provider.py`) -/

/-- The low-level events of the provider stream: `LLMTextDelta`,
`LLMToolCallDelta` (with its three optional fields) and `LLMFinished`. -/
inductive LLMEvent where
  | textDelta (content : String)
  | toolCallDelta (index : Nat) (id : Option String) (name : Option String)
      (arguments_chunk : Option String)
  | finished (finish_reason : String) (prompt_tokens : Int) (completion_tokens : Int)

/-! ### Tool executor (`src/api/infrastructure/tools/tool_executor.py`) -/

/-- The two executor failure kinds (`ToolNotFoundError`,
`ToolExecutionError`) from `src/api/domain/exceptions.py`. -/
inductive ToolFailure where
  | toolNotFound (name : String)
  | toolExecutionError (tool_name : String) (message : String)
deriving DecidableEq

/-- A registered tool, as the executor sees it: its name and its behaviour.
`run` models Pydantic input validation followed by `tool.execute`; an
`.error` is any exception either step raises. -/
structure RegisteredTool where
  name : String
  run : Jx → Except String Jx

/-- `ToolExecutor.execute`: unregistered names raise `ToolNotFoundError`;
any exception inside the `try` block (input validation, tool execution, or
`ToolResult` construction) is wrapped in `ToolExecutionError`. -/
def ToolExecutor.execute (tools : List RegisteredTool) (tool_call : ToolCall) :
    Except ToolFailure ToolResult :=
  match tools.find? (fun t => t.name == tool_call.name) with
  | none => .error (.toolNotFound tool_call.name)
  | some tool =>
    match tool.run tool_call.arguments with
    | .error e => .error (.toolExecutionError tool_call.name e)
    | .ok result =>
      match ToolResult.make tool_call.id tool_call.name result with
      | .error e => .error (.toolExecutionError tool_call.name e)
      | .ok tr => .ok tr

/-! ### The orchestrator
(`src/api/application/use_cases/stream_chat_completion.py`) -/

/-- One entry of `tool_calls_in_progress`: the dict
`{id, name, arguments}` accumulated for one stream position. -/
structure ToolAcc where
  id : String
  name : String
  arguments : String
deriving DecidableEq

/-- `tool_calls_in_progress`: a Python dict keyed by position index,
modelled as an association list in insertion order (Python dicts preserve
insertion order, and assigning to an existing key keeps its place). -/
abbrev Progress := List (Nat × ToolAcc)

/-- Dict assignment `d[k] = v`: replace in place, or append a new key. -/
def Progress.setItem : Progress → Nat → ToolAcc → Progress
  | [], k, v => [(k, v)]
  | (k', v') :: rest, k, v =>
    if k' = k then (k, v) :: rest else (k', v') :: Progress.setItem rest k v

/-- Dict lookup `d[k]`, `none` modelling a `KeyError`. -/
def Progress.getItem : Progress → Nat → Option ToolAcc
  | [], _ => none
  | (k', v') :: rest, k => if k' = k then some v' else Progress.getItem rest k

/-- `d[k]['arguments'] += chunk` (the key is known to be present when the
orchestrator uses this). -/
def Progress.appendArgs : Progress → Nat → String → Progress
  | [], _, _ => []
  | (k', v') :: rest, k, chunk =>
    if k' = k then (k', { v' with arguments := v'.arguments ++ chunk }) :: rest
    else (k', v') :: Progress.appendArgs rest k chunk

/-- The uncaught exceptions that can abort `execute`'s generator. -/
inductive OrchFailure where
  | keyError (index : Nat)
  | jsonDecodeError
  | valueError (message : String)
  | toolFailure (e : ToolFailure)
deriving DecidableEq

/-- One observable step of the terminal-event handling: either a yielded
domain event or the start of a (sequential, awaited) tool execution. -/
inductive Step where
  | emit (e : StreamEvent)
  | invoke (tc : ToolCall)
deriving DecidableEq

/-- The domain events among a step trace. -/
def traceEvents (steps : List Step) : List StreamEvent :=
  steps.filterMap (fun s => match s with | .emit e => some e | .invoke _ => none)

/-- The tool executions started in a step trace, in order. -/
def traceInvokes (steps : List Step) : List ToolCall :=
  steps.filterMap (fun s => match s with | .emit _ => none | .invoke tc => some tc)

/-- The `LLMFinished` branch body over the accumulated entries, in
insertion order: parse each entry's accumulated text (`json.loads`),
construct the `ToolCall` (validated), yield `ToolCallCompleted`, await the
executor, yield `ToolResultAvailable`; the first uncaught exception aborts
the loop. Returns the interleaved step trace. -/
def finishCalls (execTool : ToolCall → Except ToolFailure ToolResult) :
    List ToolAcc → List Step × Option OrchFailure
  | [] => ([], none)
  | entry :: rest =>
    match Jx.loads entry.arguments with
    | none => ([], some .jsonDecodeError)
    | some args =>
      match ToolCall.make entry.id entry.name args with
      | .error m => ([], some (.valueError m))
      | .ok tool_call =>
        match execTool tool_call with
        | .error e =>
          ([.emit (.toolCallCompleted tool_call), .invoke tool_call],
           some (.toolFailure e))
        | .ok tool_result =>
          let (tail, err) := finishCalls execTool rest
          (.emit (.toolCallCompleted tool_call) :: .invoke tool_call ::
             .emit (.toolResultAvailable tool_result) :: tail, err)

/-- Handling of one provider event in the `async for` body: the events it
yields and the updated accumulator, or the events yielded before an
uncaught exception. -/
def stepEvent (execTool : ToolCall → Except ToolFailure ToolResult)
    (acc : Progress) :
    LLMEvent → Except (List StreamEvent × OrchFailure) (List StreamEvent × Progress)
  | .textDelta content => .ok ([.textDelta content], acc)
  | .toolCallDelta index id name arguments_chunk =>
    let (evs1, acc1) : List StreamEvent × Progress :=
      match id with
      | some i =>
        ([.toolCallStarted i (name.getD "")],
         acc.setItem index ⟨i, name.getD "", ""⟩)
      | none => ([], acc)
    match arguments_chunk with
    | some chunk =>
      if chunk = "" then .ok (evs1, acc1)
      else
        match acc1.getItem index with
        | none => .error (evs1, .keyError index)
        | some entry =>
          .ok (evs1 ++ [.toolCallArgumentChunk entry.id chunk],
               acc1.appendArgs index chunk)
    | none => .ok (evs1, acc1)
  | .finished finish_reason prompt_tokens completion_tokens =>
    let (steps, err) := finishCalls execTool (acc.map (fun kv => kv.2))
    match err with
    | some e => .error (traceEvents steps, e)
    | none =>
      .ok (traceEvents steps ++
        [.completionFinished finish_reason
          ⟨prompt_tokens, completion_tokens, prompt_tokens + completion_tokens⟩], acc)

/-- The whole `async for` loop: all yielded events, and either the final
accumulator (generator exhausted normally) or the uncaught exception. -/
def runEvents (execTool : ToolCall → Except ToolFailure ToolResult)
    (acc : Progress) :
    List LLMEvent → List StreamEvent × Except OrchFailure Progress
  | [] => ([], .ok acc)
  | e :: rest =>
    match stepEvent execTool acc e with
    | .error (evs, err) => (evs, .error err)
    | .ok (evs, acc1) =>
      let (evs2, out) := runEvents execTool acc1 rest
      (evs ++ evs2, out)

/-- `StreamChatCompletionUseCase.execute`, given the provider's event
stream: starts from an empty `tool_calls_in_progress` accumulator. -/
def useCaseExecute (execTool : ToolCall → Except ToolFailure ToolResult)
    (events : List LLMEvent) : List StreamEvent × Except OrchFailure Progress :=
  runEvents execTool [] events

/-! ### Protocol formatter
(`src/api/infrastructure/protocol/vercel_stream.py`) -/

/-- `VercelStreamProtocolAdapter.format_event` at character level: each
transmitted variant becomes a tagged line; `ToolCallStarted` and
`ToolCallArgumentChunk` map to the empty string. The id/name/reason
strings are interpolated raw (Python f-string), only the `args`, `result`
and text payloads go through `json.dumps`. -/
def formatChars : StreamEvent → List Char
  | .textDelta content => '0' :: ':' :: dumpChars (.str content) ++ ['\n']
  | .toolCallCompleted tool_call =>
    '9' :: ':' :: '{' :: "\"toolCallId\":\"".data ++ tool_call.id.data
      ++ "\",\"toolName\":\"".data ++ tool_call.name.data
      ++ "\",\"args\":".data ++ dumpChars tool_call.arguments ++ ['}', '\n']
  | .toolResultAvailable tool_result =>
    'a' :: ':' :: '{' :: "\"toolCallId\":\"".data ++ tool_result.call_id.data
      ++ "\",\"toolName\":\"".data ++ tool_result.name.data
      ++ "\",\"result\":".data ++ dumpChars tool_result.result ++ ['}', '\n']
  | .completionFinished finish_reason usage =>
    'e' :: ':' :: '{' :: "\"finishReason\":\"".data ++ finish_reason.data
      ++ "\",\"usage\":".data ++ '{' :: "\"promptTokens\":".data
      ++ intChars usage.prompt_tokens ++ ",\"completionTokens\":".data
      ++ intChars usage.completion_tokens ++ '}' :: ",\"isContinued\":false".data
      ++ ['}', '\n']
  | .toolCallStarted _ _ => []
  | .toolCallArgumentChunk _ _ => []

/-- `VercelStreamProtocolAdapter.format_event`. -/
def format_event (event : StreamEvent) : String := String.mk (formatChars event)

/-- JSON-decode the payload that follows a two-character tag such as `9:`
(trailing newline is whitespace for `json.loads`). -/
def decodeAfterTag (s : String) : Option Jx := Jx.loads (String.mk (s.data.drop 2))

/-! ## Generic lemmas about the orchestration loop -/

/-- `String.join` unfolding. -/
theorem join_cons (s : String) (ss : List String) :
    String.join (s :: ss) = s ++ String.join ss :=
  String.ext (by simp)

/-- A run over `xs ++ ys` first runs `xs`; if that does not abort, the
events of `ys`'s run are appended. -/
theorem runEvents_append_ok (execTool : ToolCall → Except ToolFailure ToolResult)
    {acc acc1 : Progress} {xs : List LLMEvent} {evs : List StreamEvent}
    (ys : List LLMEvent)
    (hxs : runEvents execTool acc xs = (evs, .ok acc1)) :
    runEvents execTool acc (xs ++ ys)
      = (evs ++ (runEvents execTool acc1 ys).1, (runEvents execTool acc1 ys).2) := by
  induction xs generalizing acc evs with
  | nil =>
    simp only [runEvents] at hxs
    injection hxs with h1 h2
    injection h2 with h3
    subst h1; subst h3
    simp [List.nil_append]
  | cons e rest ih =>
    rw [List.cons_append]
    simp only [runEvents] at hxs ⊢
    cases h : stepEvent execTool acc e with
    | error p =>
      rw [h] at hxs
      injection hxs with h1 h2
      exact absurd h2 (by simp)
    | ok p =>
      obtain ⟨evs0, accm⟩ := p
      rw [h] at hxs
      dsimp only at hxs ⊢
      cases hr : runEvents execTool accm rest with
      | mk evs1 out1 =>
        rw [hr] at hxs
        dsimp only at hxs
        injection hxs with h1 h2
        subst h1
        cases out1 with
        | error e2 => exact absurd h2 (by simp)
        | ok accr =>
          obtain rfl : accr = acc1 := by injection h2
          rw [ih hr]
          simp [List.append_assoc]

/-- Processing a run of non-empty argument chunks for a present position
appends their concatenation to that entry and yields one
`ToolCallArgumentChunk` per chunk, in order. -/
theorem run_chunks (execTool : ToolCall → Except ToolFailure ToolResult)
    (i : Nat) (id nm : String) (chunks : List String) (s : String)
    (hne : ∀ ch ∈ chunks, ch ≠ "") :
    runEvents execTool [(i, ⟨id, nm, s⟩)]
        (chunks.map (fun ch => .toolCallDelta i none none (some ch)))
      = (chunks.map (fun ch => .toolCallArgumentChunk id ch),
         .ok [(i, ⟨id, nm, s ++ String.join chunks⟩)]) := by
  induction chunks generalizing s with
  | nil => simp [runEvents, String.join]
  | cons ch rest ih =>
    have hch : ¬ ch = "" := hne ch (by simp)
    have hstep : stepEvent execTool [(i, ⟨id, nm, s⟩)]
        (.toolCallDelta i none none (some ch))
        = .ok ([.toolCallArgumentChunk id ch], [(i, ⟨id, nm, s ++ ch⟩)]) := by
      simp [stepEvent, Progress.getItem, Progress.appendArgs, hch]
    simp only [List.map_cons, runEvents, hstep]
    rw [ih (s ++ ch) (fun c hc => hne c (by simp [hc]))]
    simp [join_cons, String.append_assoc]

/-- A tool executor that echoes the call with a `null` result (used to
instantiate claims at concrete inputs). -/
def okExec : ToolCall → Except ToolFailure ToolResult :=
  fun tc => .ok ⟨tc.id, tc.name, Jx.null⟩

/-- C1: for a provider stream made of one tool-call start fragment at
position 0 with id `"call_1"` and a name, then N non-empty argument
chunks for position 0, then the terminal event, the orchestrator emits
exactly `ToolCallStarted`, the N `ToolCallArgumentChunk` events in arrival
order, `ToolCallCompleted` whose `ToolCall.arguments` is the structured
parse of the chunks' concatenation, `ToolResultAvailable` for `"call_1"`,
and one `CompletionFinished`. -/
theorem claim_C1 (execTool : ToolCall → Except ToolFailure ToolResult)
    (nm : String) (chunks : List String) (finish_reason : String)
    (p c : Int) (args : Jx) (tr : ToolResult)
    (hnm : nm ≠ "")
    (hchunks : ∀ ch ∈ chunks, ch ≠ "")
    (hparse : Jx.loads (String.join chunks) = some args)
    (hexec : execTool ⟨"call_1", nm, args⟩ = .ok tr) :
    useCaseExecute execTool
        (.toolCallDelta 0 (some "call_1") (some nm) none
          :: (chunks.map (fun ch => .toolCallDelta 0 none none (some ch))
              ++ [.finished finish_reason p c]))
      = (.toolCallStarted "call_1" nm
          :: (chunks.map (fun ch => .toolCallArgumentChunk "call_1" ch)
              ++ [.toolCallCompleted ⟨"call_1", nm, args⟩,
                  .toolResultAvailable tr,
                  .completionFinished finish_reason ⟨p, c, p + c⟩]),
         .ok [(0, ⟨"call_1", nm, String.join chunks⟩)]) := by
  have hstart : stepEvent execTool [] (.toolCallDelta 0 (some "call_1") (some nm) none)
      = .ok ([.toolCallStarted "call_1" nm], [(0, ⟨"call_1", nm, ""⟩)]) := by
    simp [stepEvent, Progress.setItem]
  have hrun1 : runEvents execTool [(0, ⟨"call_1", nm, ""⟩)]
      (chunks.map (fun ch => .toolCallDelta 0 none none (some ch)))
      = (chunks.map (fun ch => .toolCallArgumentChunk "call_1" ch),
         .ok [(0, ⟨"call_1", nm, String.join chunks⟩)]) := by
    simpa using run_chunks execTool 0 "call_1" nm chunks "" hchunks
  have hmk : ToolCall.make "call_1" nm args = .ok ⟨"call_1", nm, args⟩ := by
    simp [ToolCall.make, hnm]
  have hfin : stepEvent execTool [(0, ⟨"call_1", nm, String.join chunks⟩)]
      (.finished finish_reason p c)
      = .ok ([.toolCallCompleted ⟨"call_1", nm, args⟩, .toolResultAvailable tr,
              .completionFinished finish_reason ⟨p, c, p + c⟩],
             [(0, ⟨"call_1", nm, String.join chunks⟩)]) := by
    simp [stepEvent, finishCalls, hparse, hmk, hexec, traceEvents]
  show runEvents execTool [] (_ :: _) = _
  simp only [runEvents, hstart]
  rw [runEvents_append_ok execTool _ hrun1]
  simp [runEvents, hfin]

/-- Witness for C1 at a concrete stream: two chunks forming
`{"city": "SF"}`. -/
theorem claim_C1_witness :
    useCaseExecute okExec
        (.toolCallDelta 0 (some "call_1") (some "get_weather") none
          :: (["\x7b\"city\": ", "\"SF\"\x7d"].map
                (fun ch => .toolCallDelta 0 none none (some ch))
              ++ [.finished "tool_calls" 15 0]))
      = (.toolCallStarted "call_1" "get_weather"
          :: (["\x7b\"city\": ", "\"SF\"\x7d"].map
                (fun ch => .toolCallArgumentChunk "call_1" ch)
              ++ [.toolCallCompleted ⟨"call_1", "get_weather", .obj [("city", .str "SF")]⟩,
                  .toolResultAvailable ⟨"call_1", "get_weather", .null⟩,
                  .completionFinished "tool_calls" ⟨15, 0, 15 + 0⟩]),
         .ok [(0, ⟨"call_1", "get_weather", String.join ["\x7b\"city\": ", "\"SF\"\x7d"]⟩)]) :=
  claim_C1 okExec "get_weather" ["\x7b\"city\": ", "\"SF\"\x7d"] "tool_calls" 15 0
    (.obj [("city", .str "SF")]) ⟨"call_1", "get_weather", .null⟩
    (by simp) (by simp) rfl rfl

/-! ## Terminal-event handling: success and failure shapes -/

/-- All entries of an accumulator resolve successfully: each parses, makes
a valid `ToolCall`, and the executor returns a result. `ps` collects the
call/result pair of each entry, in order. -/
inductive FinishOk (execTool : ToolCall → Except ToolFailure ToolResult) :
    List ToolAcc → List (ToolCall × ToolResult) → Prop where
  | nil : FinishOk execTool [] []
  | cons {entry : ToolAcc} {rest : List ToolAcc} {args : Jx} {tc : ToolCall}
      {tr : ToolResult} {ps : List (ToolCall × ToolResult)}
      (hparse : Jx.loads entry.arguments = some args)
      (hmake : ToolCall.make entry.id entry.name args = .ok tc)
      (hexec : execTool tc = .ok tr)
      (htail : FinishOk execTool rest ps) :
      FinishOk execTool (entry :: rest) ((tc, tr) :: ps)

/-- The step-trace triple of one successfully executed call. -/
def pairSteps (q : ToolCall × ToolResult) : List Step :=
  [.emit (.toolCallCompleted q.1), .invoke q.1, .emit (.toolResultAvailable q.2)]

/-- The event pair of one successfully executed call. -/
def pairEvents (q : ToolCall × ToolResult) : List StreamEvent :=
  [.toolCallCompleted q.1, .toolResultAvailable q.2]

theorem FinishOk.length_eq {execTool : ToolCall → Except ToolFailure ToolResult}
    {entries : List ToolAcc} {ps : List (ToolCall × ToolResult)}
    (h : FinishOk execTool entries ps) : ps.length = entries.length := by
  induction h with
  | nil => rfl
  | cons _ _ _ _ ih => simp [ih]

/-- A fully successful terminal resolution produces the adjacent
completed/invoke/result triples of all entries, in order, and no failure. -/
theorem finishCalls_ok {execTool : ToolCall → Except ToolFailure ToolResult}
    {entries : List ToolAcc} {ps : List (ToolCall × ToolResult)}
    (hok : FinishOk execTool entries ps) :
    finishCalls execTool entries = (ps.flatMap pairSteps, none) := by
  induction hok with
  | nil => simp [finishCalls]
  | cons hparse hmake hexec _ ih =>
    simp [finishCalls, hparse, hmake, hexec, ih, pairSteps]

/-- If the entries after a well-behaved prefix start with one whose
accumulated text does not parse, the terminal resolution stops there with
a decode failure, having produced only the prefix triples. -/
theorem finishCalls_badparse {execTool : ToolCall → Except ToolFailure ToolResult}
    {good : List ToolAcc} {ps : List (ToolCall × ToolResult)}
    (hok : FinishOk execTool good ps) (bad : ToolAcc) (rest : List ToolAcc)
    (hbad : Jx.loads bad.arguments = none) :
    finishCalls execTool (good ++ bad :: rest)
      = (ps.flatMap pairSteps, some .jsonDecodeError) := by
  induction hok with
  | nil => simp [finishCalls, hbad]
  | cons hparse hmake hexec _ ih =>
    simp [finishCalls, hparse, hmake, hexec, ih, pairSteps]

/-- If, after a well-behaved prefix, the executor rejects an entry's call,
the terminal resolution stops right after that call's `ToolCallCompleted`
and its execution attempt: no result event for it, and no entry after it
is even looked at. -/
theorem finishCalls_badexec {execTool : ToolCall → Except ToolFailure ToolResult}
    {good : List ToolAcc} {ps : List (ToolCall × ToolResult)}
    (hok : FinishOk execTool good ps) (bad : ToolAcc) (rest : List ToolAcc)
    {args : Jx} {tcf : ToolCall} {te : ToolFailure}
    (hparse : Jx.loads bad.arguments = some args)
    (hmake : ToolCall.make bad.id bad.name args = .ok tcf)
    (hexec : execTool tcf = .error te) :
    finishCalls execTool (good ++ bad :: rest)
      = (ps.flatMap pairSteps ++ [.emit (.toolCallCompleted tcf), .invoke tcf],
         some (.toolFailure te)) := by
  induction hok with
  | nil => simp [finishCalls, hparse, hmake, hexec]
  | cons hp hm hx _ ih =>
    simp [finishCalls, hp, hm, hx, ih, pairSteps]

theorem traceEvents_pairs (ps : List (ToolCall × ToolResult)) :
    traceEvents (ps.flatMap pairSteps) = ps.flatMap pairEvents := by
  induction ps with
  | nil => rfl
  | cons q t ih => simp [traceEvents, pairSteps, pairEvents] at ih ⊢; simp [ih]

theorem traceInvokes_pairs (ps : List (ToolCall × ToolResult)) :
    traceInvokes (ps.flatMap pairSteps) = ps.map (fun q : ToolCall × ToolResult => q.1) := by
  induction ps with
  | nil => rfl
  | cons q t ih => simp [traceInvokes, pairSteps] at ih ⊢; simp [ih]

theorem traceEvents_append (a b : List Step) :
    traceEvents (a ++ b) = traceEvents a ++ traceEvents b := by
  simp [traceEvents]

theorem traceInvokes_append (a b : List Step) :
    traceInvokes (a ++ b) = traceInvokes a ++ traceInvokes b := by
  simp [traceInvokes]

theorem traceEvents_failing_tail (tcf : ToolCall) :
    traceEvents [.emit (.toolCallCompleted tcf), .invoke tcf]
      = [.toolCallCompleted tcf] := rfl

theorem traceInvokes_failing_tail (tcf : ToolCall) :
    traceInvokes [.emit (.toolCallCompleted tcf), .invoke tcf] = [tcf] := rfl

/-- The terminal step when every accumulated entry resolves: all pairs, in
insertion order, then the single `CompletionFinished` with the computed
usage. -/
theorem stepFinished_ok {execTool : ToolCall → Except ToolFailure ToolResult}
    {acc : Progress} {ps : List (ToolCall × ToolResult)}
    (finish_reason : String) (p c : Int)
    (hok : FinishOk execTool (acc.map (fun kv => kv.2)) ps) :
    stepEvent execTool acc (.finished finish_reason p c)
      = .ok (ps.flatMap pairEvents
          ++ [.completionFinished finish_reason ⟨p, c, p + c⟩], acc) := by
  simp [stepEvent, finishCalls_ok hok, traceEvents_pairs]

/-- C2: whenever the stream before the terminal event has started two
tool calls (accumulator entries in start order, fragments arbitrarily
interleaved), the two completed/result pairs are emitted adjacently and in
start order, and (second conjunct, on the step trace) the second call's
execution is started only after the first call's result event. -/
theorem claim_C2 (execTool : ToolCall → Except ToolFailure ToolResult)
    (es : List LLMEvent) (evs0 : List StreamEvent) (i0 i1 : Nat)
    (e0 e1 : ToolAcc) (args0 args1 : Jx) (tc0 tc1 : ToolCall)
    (tr0 tr1 : ToolResult) (finish_reason : String) (p c : Int)
    (hrun : runEvents execTool [] es = (evs0, .ok [(i0, e0), (i1, e1)]))
    (hp0 : Jx.loads e0.arguments = some args0)
    (hm0 : ToolCall.make e0.id e0.name args0 = .ok tc0)
    (hx0 : execTool tc0 = .ok tr0)
    (hp1 : Jx.loads e1.arguments = some args1)
    (hm1 : ToolCall.make e1.id e1.name args1 = .ok tc1)
    (hx1 : execTool tc1 = .ok tr1) :
    useCaseExecute execTool (es ++ [.finished finish_reason p c])
      = (evs0 ++ [.toolCallCompleted tc0, .toolResultAvailable tr0,
                  .toolCallCompleted tc1, .toolResultAvailable tr1,
                  .completionFinished finish_reason ⟨p, c, p + c⟩],
         .ok [(i0, e0), (i1, e1)])
    ∧ finishCalls execTool [e0, e1]
      = ([.emit (.toolCallCompleted tc0), .invoke tc0,
          .emit (.toolResultAvailable tr0),
          .emit (.toolCallCompleted tc1), .invoke tc1,
          .emit (.toolResultAvailable tr1)], none) := by
  have hok : FinishOk execTool [e0, e1] [(tc0, tr0), (tc1, tr1)] :=
    .cons hp0 hm0 hx0 (.cons hp1 hm1 hx1 .nil)
  refine ⟨?_, by simpa [pairSteps] using finishCalls_ok hok⟩
  show runEvents execTool [] _ = _
  rw [runEvents_append_ok execTool _ hrun]
  have hstep := @stepFinished_ok execTool [(i0, e0), (i1, e1)] _ finish_reason p c
    (by simpa using hok)
  simp [runEvents, hstep, pairEvents]

/-- Witness for C2: two calls started at positions 0 and 1 with
interleaved fragments, both arguments `{}`. -/
theorem claim_C2_witness :
    useCaseExecute okExec
        ([.toolCallDelta 0 (some "c1") (some "t1") none,
          .toolCallDelta 1 (some "c2") (some "t2") none,
          .toolCallDelta 0 none none (some "\x7b\x7d"),
          .toolCallDelta 1 none none (some "\x7b\x7d")]
         ++ [.finished "tool_calls" 7 2])
      = ([.toolCallStarted "c1" "t1", .toolCallStarted "c2" "t2",
          .toolCallArgumentChunk "c1" "\x7b\x7d", .toolCallArgumentChunk "c2" "\x7b\x7d"]
          ++ [.toolCallCompleted ⟨"c1", "t1", .obj []⟩,
              .toolResultAvailable ⟨"c1", "t1", .null⟩,
              .toolCallCompleted ⟨"c2", "t2", .obj []⟩,
              .toolResultAvailable ⟨"c2", "t2", .null⟩,
              .completionFinished "tool_calls" ⟨7, 2, 7 + 2⟩],
         .ok [(0, ⟨"c1", "t1", "\x7b\x7d"⟩), (1, ⟨"c2", "t2", "\x7b\x7d"⟩)])
    ∧ finishCalls okExec [⟨"c1", "t1", "\x7b\x7d"⟩, ⟨"c2", "t2", "\x7b\x7d"⟩]
      = ([.emit (.toolCallCompleted ⟨"c1", "t1", .obj []⟩), .invoke ⟨"c1", "t1", .obj []⟩,
          .emit (.toolResultAvailable ⟨"c1", "t1", .null⟩),
          .emit (.toolCallCompleted ⟨"c2", "t2", .obj []⟩), .invoke ⟨"c2", "t2", .obj []⟩,
          .emit (.toolResultAvailable ⟨"c2", "t2", .null⟩)], none) :=
  claim_C2 okExec
    [.toolCallDelta 0 (some "c1") (some "t1") none,
     .toolCallDelta 1 (some "c2") (some "t2") none,
     .toolCallDelta 0 none none (some "\x7b\x7d"),
     .toolCallDelta 1 none none (some "\x7b\x7d")]
    [.toolCallStarted "c1" "t1", .toolCallStarted "c2" "t2",
     .toolCallArgumentChunk "c1" "\x7b\x7d", .toolCallArgumentChunk "c2" "\x7b\x7d"]
    0 1 ⟨"c1", "t1", "\x7b\x7d"⟩ ⟨"c2", "t2", "\x7b\x7d"⟩ (.obj []) (.obj [])
    ⟨"c1", "t1", .obj []⟩ ⟨"c2", "t2", .obj []⟩
    ⟨"c1", "t1", .null⟩ ⟨"c2", "t2", .null⟩ "tool_calls" 7 2
    rfl rfl rfl rfl rfl rfl rfl

/-- C3 counterexample: a call started at position 0 that receives zero
argument chunks has empty accumulated text; `json.loads("")` fails, so the
orchestration aborts with a decode failure and no `ToolCallCompleted` is
ever emitted for the started call, contradicting the claim. -/
theorem claim_C3_counterexample :
    useCaseExecute okExec
        [.toolCallDelta 0 (some "call_1") (some "get_weather") none,
         .finished "tool_calls" 1 0]
      = ([.toolCallStarted "call_1" "get_weather"], .error .jsonDecodeError)
    ∧ ∀ tc, StreamEvent.toolCallCompleted tc ∉
        (useCaseExecute okExec
          [.toolCallDelta 0 (some "call_1") (some "get_weather") none,
           .finished "tool_calls" 1 0]).1 := by
  refine ⟨rfl, fun tc h => ?_⟩
  rw [show (useCaseExecute okExec
      [.toolCallDelta 0 (some "call_1") (some "get_weather") none,
       .finished "tool_calls" 1 0]).1
      = [.toolCallStarted "call_1" "get_weather"] from rfl] at h
  simp at h

/-- C3 as amended: after normal termination, one `ToolCallCompleted`
carrying fully parsed arguments is fired, in insertion order, for each
started position whose accumulated text parses — provided every started
entry resolves (parse, validation and execution succeed). A started call
with zero argument chunks has empty accumulated text, which does not
parse, and instead aborts the sequence (see the counterexample). -/
theorem claim_C3_amended (execTool : ToolCall → Except ToolFailure ToolResult)
    (es : List LLMEvent) (evs0 : List StreamEvent) (acc : Progress)
    (ps : List (ToolCall × ToolResult)) (finish_reason : String) (p c : Int)
    (hrun : runEvents execTool [] es = (evs0, .ok acc))
    (hok : FinishOk execTool (acc.map (fun kv => kv.2)) ps) :
    useCaseExecute execTool (es ++ [.finished finish_reason p c])
      = (evs0 ++ (ps.flatMap pairEvents
          ++ [.completionFinished finish_reason ⟨p, c, p + c⟩]), .ok acc)
    ∧ ps.length = acc.length := by
  refine ⟨?_, by simpa using hok.length_eq⟩
  show runEvents execTool [] _ = _
  rw [runEvents_append_ok execTool _ hrun]
  simp [runEvents, stepFinished_ok finish_reason p c hok]

/-- Witness for the amended C3: one started call with one chunk. -/
theorem claim_C3_amended_witness :
    useCaseExecute okExec
        ([.toolCallDelta 0 (some "call_1") (some "t") none,
          .toolCallDelta 0 none none (some "\x7b\x7d")]
         ++ [.finished "tool_calls" 3 1])
      = ([.toolCallStarted "call_1" "t", .toolCallArgumentChunk "call_1" "\x7b\x7d"]
          ++ ([(⟨"call_1", "t", .obj []⟩, ⟨"call_1", "t", Jx.null⟩)].flatMap pairEvents
              ++ [.completionFinished "tool_calls" ⟨3, 1, 3 + 1⟩]),
         .ok [(0, ⟨"call_1", "t", "\x7b\x7d"⟩)])
    ∧ [((⟨"call_1", "t", .obj []⟩ : ToolCall), (⟨"call_1", "t", Jx.null⟩ : ToolResult))].length
        = [(0, (⟨"call_1", "t", "\x7b\x7d"⟩ : ToolAcc))].length :=
  claim_C3_amended okExec
    [.toolCallDelta 0 (some "call_1") (some "t") none,
     .toolCallDelta 0 none none (some "\x7b\x7d")]
    [.toolCallStarted "call_1" "t", .toolCallArgumentChunk "call_1" "\x7b\x7d"]
    [(0, ⟨"call_1", "t", "\x7b\x7d"⟩)]
    [(⟨"call_1", "t", .obj []⟩, ⟨"call_1", "t", Jx.null⟩)] "tool_calls" 3 1
    rfl (.cons rfl rfl rfl .nil)

/-- C4: if, at the terminal event, some entry's accumulated text is not
well-formed, the resolution fails at that entry's turn: the events of the
entries before it stay as emitted, no `ToolCallCompleted` for the
malformed entry appears, and nothing (including `CompletionFinished`) is
emitted after the failure. -/
theorem claim_C4 (execTool : ToolCall → Except ToolFailure ToolResult)
    (es : List LLMEvent) (evs0 : List StreamEvent) (acc : Progress)
    (good : List ToolAcc) (bad : ToolAcc) (rest : List ToolAcc)
    (ps : List (ToolCall × ToolResult)) (finish_reason : String) (p c : Int)
    (hrun : runEvents execTool [] es = (evs0, .ok acc))
    (hsplit : acc.map (fun kv => kv.2) = good ++ bad :: rest)
    (hok : FinishOk execTool good ps)
    (hbad : Jx.loads bad.arguments = none) :
    useCaseExecute execTool (es ++ [.finished finish_reason p c])
      = (evs0 ++ ps.flatMap pairEvents, .error .jsonDecodeError) := by
  show runEvents execTool [] _ = _
  rw [runEvents_append_ok execTool _ hrun]
  have hstep : stepEvent execTool acc (.finished finish_reason p c)
      = .error (ps.flatMap pairEvents, .jsonDecodeError) := by
    simp [stepEvent, hsplit, finishCalls_badparse hok bad rest hbad, traceEvents_pairs]
  simp [runEvents, hstep]

/-- Witness for C4: a good first call, then an entry holding `{"a":`. -/
theorem claim_C4_witness :
    useCaseExecute okExec
        ([.toolCallDelta 0 (some "c1") (some "t1") none,
          .toolCallDelta 0 none none (some "\x7b\x7d"),
          .toolCallDelta 1 (some "c2") (some "t2") none,
          .toolCallDelta 1 none none (some "\x7b\"a\":")]
         ++ [.finished "tool_calls" 4 4])
      = ([.toolCallStarted "c1" "t1", .toolCallArgumentChunk "c1" "\x7b\x7d",
          .toolCallStarted "c2" "t2", .toolCallArgumentChunk "c2" "\x7b\"a\":"]
          ++ [(⟨"c1", "t1", .obj []⟩, ⟨"c1", "t1", Jx.null⟩)].flatMap pairEvents,
         .error .jsonDecodeError) :=
  claim_C4 okExec
    [.toolCallDelta 0 (some "c1") (some "t1") none,
     .toolCallDelta 0 none none (some "\x7b\x7d"),
     .toolCallDelta 1 (some "c2") (some "t2") none,
     .toolCallDelta 1 none none (some "\x7b\"a\":")]
    [.toolCallStarted "c1" "t1", .toolCallArgumentChunk "c1" "\x7b\x7d",
     .toolCallStarted "c2" "t2", .toolCallArgumentChunk "c2" "\x7b\"a\":"]
    [(0, ⟨"c1", "t1", "\x7b\x7d"⟩), (1, ⟨"c2", "t2", "\x7b\"a\":"⟩)]
    [⟨"c1", "t1", "\x7b\x7d"⟩] ⟨"c2", "t2", "\x7b\"a\":"⟩ []
    [(⟨"c1", "t1", .obj []⟩, ⟨"c1", "t1", Jx.null⟩)] "tool_calls" 4 4
    rfl rfl (.cons rfl rfl rfl .nil) rfl

/-- C5: if the executor rejects some call (unregistered name or failed
execution), the failure propagates at that call's turn: its
`ToolCallCompleted` is already out, no `ToolResultAvailable` for it
follows, no later call is ever attempted (the invocation trace stops at
the failing call), and no `CompletionFinished` is emitted. -/
theorem claim_C5 (execTool : ToolCall → Except ToolFailure ToolResult)
    (es : List LLMEvent) (evs0 : List StreamEvent) (acc : Progress)
    (good : List ToolAcc) (bad : ToolAcc) (rest : List ToolAcc)
    (ps : List (ToolCall × ToolResult)) (args : Jx) (tcf : ToolCall)
    (te : ToolFailure) (finish_reason : String) (p c : Int)
    (hrun : runEvents execTool [] es = (evs0, .ok acc))
    (hsplit : acc.map (fun kv => kv.2) = good ++ bad :: rest)
    (hok : FinishOk execTool good ps)
    (hparse : Jx.loads bad.arguments = some args)
    (hmake : ToolCall.make bad.id bad.name args = .ok tcf)
    (hexec : execTool tcf = .error te) :
    useCaseExecute execTool (es ++ [.finished finish_reason p c])
      = (evs0 ++ (ps.flatMap pairEvents ++ [.toolCallCompleted tcf]),
         .error (.toolFailure te))
    ∧ traceInvokes (finishCalls execTool (acc.map (fun kv => kv.2))).1
      = ps.map (fun q : ToolCall × ToolResult => q.1) ++ [tcf] := by
  have hfc := finishCalls_badexec hok bad rest hparse hmake hexec
  constructor
  · show runEvents execTool [] _ = _
    rw [runEvents_append_ok execTool _ hrun]
    have hstep : stepEvent execTool acc (.finished finish_reason p c)
        = .error (ps.flatMap pairEvents ++ [.toolCallCompleted tcf],
                  .toolFailure te) := by
      simp [stepEvent, hsplit, hfc, traceEvents_append, traceEvents_pairs,
        traceEvents_failing_tail]
    simp [runEvents, hstep]
  · rw [hsplit, hfc]
    simp [traceInvokes_append, traceInvokes_pairs, traceInvokes_failing_tail]

/-- An executor with no registered tools: every call fails as not found
(`ToolExecutor.execute` over an empty registry). -/
def emptyRegistryExec : ToolCall → Except ToolFailure ToolResult :=
  ToolExecutor.execute []

/-- Witness for C5: the single started call hits an empty registry. -/
theorem claim_C5_witness :
    useCaseExecute emptyRegistryExec
        ([.toolCallDelta 0 (some "c1") (some "t1") none,
          .toolCallDelta 0 none none (some "\x7b\x7d")]
         ++ [.finished "tool_calls" 4 4])
      = ([.toolCallStarted "c1" "t1", .toolCallArgumentChunk "c1" "\x7b\x7d"]
          ++ ([].flatMap pairEvents ++ [.toolCallCompleted ⟨"c1", "t1", .obj []⟩]),
         .error (.toolFailure (.toolNotFound "t1")))
    ∧ traceInvokes (finishCalls emptyRegistryExec
        ([(0, (⟨"c1", "t1", "\x7b\x7d"⟩ : ToolAcc))].map (fun kv => kv.2))).1
      = ([] : List (ToolCall × ToolResult)).map (fun q : ToolCall × ToolResult => q.1)
          ++ [⟨"c1", "t1", .obj []⟩] :=
  claim_C5 emptyRegistryExec
    [.toolCallDelta 0 (some "c1") (some "t1") none,
     .toolCallDelta 0 none none (some "\x7b\x7d")]
    [.toolCallStarted "c1" "t1", .toolCallArgumentChunk "c1" "\x7b\x7d"]
    [(0, ⟨"c1", "t1", "\x7b\x7d"⟩)]
    [] ⟨"c1", "t1", "\x7b\x7d"⟩ [] [] (.obj []) ⟨"c1", "t1", .obj []⟩
    (.toolNotFound "t1") "tool_calls" 4 4
    rfl rfl .nil rfl rfl rfl

/-- C6: the terminal step's `CompletionFinished` carries exactly the
terminal event's prompt and completion counts and a total the orchestrator
computes itself as their sum (the provider event carries no total at
all). -/
theorem claim_C6 (execTool : ToolCall → Except ToolFailure ToolResult)
    (acc : Progress) (finish_reason : String) (p c : Int)
    (evs : List StreamEvent) (acc2 : Progress)
    (h : stepEvent execTool acc (.finished finish_reason p c) = .ok (evs, acc2)) :
    ∃ pre, evs = pre ++ [.completionFinished finish_reason ⟨p, c, p + c⟩] := by
  simp only [stepEvent] at h
  cases hfc : finishCalls execTool (acc.map (fun kv => kv.2)) with
  | mk steps err =>
    rw [hfc] at h
    dsimp only at h
    cases err with
    | some e => exact absurd h (by simp)
    | none =>
      refine ⟨traceEvents steps, ?_⟩
      injection h with h1
      injection h1 with ha hb
      exact ha.symm

/-- Witness for C6 at a terminal-only stream. -/
theorem claim_C6_witness :
    ∃ pre, [StreamEvent.completionFinished "stop" ⟨10, 5, 10 + 5⟩]
      = pre ++ [.completionFinished "stop" ⟨10, 5, 10 + 5⟩] :=
  claim_C6 okExec [] "stop" 10 5 [.completionFinished "stop" ⟨10, 5, 10 + 5⟩] [] rfl

/-- Assigning to a present key replaces its value in place, keeping the
dict's insertion order. -/
theorem setItem_existing (pre post : Progress) (i : Nat) (old v : ToolAcc)
    (hpre : ∀ kv ∈ pre, kv.1 ≠ i) :
    Progress.setItem (pre ++ (i, old) :: post) i v = pre ++ (i, v) :: post := by
  induction pre with
  | nil => simp [Progress.setItem]
  | cons kv t ih =>
    obtain ⟨k, e⟩ := kv
    have hk : k ≠ i := hpre (k, e) (by simp)
    simp only [List.cons_append, Progress.setItem, if_neg hk, List.append_eq]
    rw [ih (fun kv h => hpre kv (by simp [h]))]

/-- C8: a second start fragment for an already-present position replaces
that entry with a fresh one (empty accumulated text, so earlier chunks are
discarded), emits a second `ToolCallStarted`, and leaves the entry at its
original first-insertion place — so the terminal handling still resolves
it in the original execution order. -/
theorem claim_C8 (execTool : ToolCall → Except ToolFailure ToolResult)
    (pre post : Progress) (i : Nat) (old : ToolAcc) (nid : String)
    (nm : Option String)
    (hpre : ∀ kv ∈ pre, kv.1 ≠ i) :
    stepEvent execTool (pre ++ (i, old) :: post)
        (.toolCallDelta i (some nid) nm none)
      = .ok ([.toolCallStarted nid (nm.getD "")],
             pre ++ (i, ⟨nid, nm.getD "", ""⟩) :: post)
    ∧ (pre ++ ((i : Nat), (⟨nid, nm.getD "", ""⟩ : ToolAcc)) :: post).map
        (fun kv : Nat × ToolAcc => kv.1)
      = (pre ++ (i, old) :: post).map (fun kv : Nat × ToolAcc => kv.1) := by
  refine ⟨?_, by simp⟩
  simp [stepEvent, setItem_existing pre post i old _ hpre]

/-- Witness for C8: position 0 restarted after accumulating a chunk. -/
theorem claim_C8_witness :
    stepEvent okExec [(0, ⟨"c1", "t1", "\x7b\"a\":"⟩), (1, ⟨"c2", "t2", ""⟩)]
        (.toolCallDelta 0 (some "c9") (some "t9") none)
      = .ok ([.toolCallStarted "c9" ((some "t9").getD "")],
             [] ++ (0, ⟨"c9", (some "t9").getD "", ""⟩) :: [(1, ⟨"c2", "t2", ""⟩)])
    ∧ ([] ++ ((0 : Nat), (⟨"c9", (some "t9").getD "", ""⟩ : ToolAcc)) :: [(1, ⟨"c2", "t2", ""⟩)]).map
        (fun kv : Nat × ToolAcc => kv.1)
      = ([] ++ (0, (⟨"c1", "t1", "\x7b\"a\":"⟩ : ToolAcc)) :: [(1, ⟨"c2", "t2", ""⟩)]).map
        (fun kv : Nat × ToolAcc => kv.1) :=
  claim_C8 okExec [] [(1, ⟨"c2", "t2", ""⟩)] 0 ⟨"c1", "t1", "\x7b\"a\":"⟩ "c9"
    (some "t9") (by simp)

/-- The events yielded by one loop step, whether it returned or aborted. -/
def outEvents
    (out : Except (List StreamEvent × OrchFailure) (List StreamEvent × Progress)) :
    List StreamEvent :=
  match out with
  | .ok p => p.1
  | .error p => p.1

/-- Terminal-event resolution never yields a `CompletionFinished` itself:
that event is appended afterwards, once, by the terminal branch. -/
theorem no_completion_in_finish (execTool : ToolCall → Except ToolFailure ToolResult)
    (entries : List ToolAcc) (r : String) (u : UsageStats) :
    StreamEvent.completionFinished r u ∉ traceEvents (finishCalls execTool entries).1 := by
  induction entries with
  | nil => simp [finishCalls, traceEvents]
  | cons entry rest ih =>
    simp only [finishCalls]
    cases hp : Jx.loads entry.arguments with
    | none => simp [traceEvents]
    | some args =>
      cases hm : ToolCall.make entry.id entry.name args with
      | error m => simp [hm, traceEvents]
      | ok tc =>
        cases hx : execTool tc with
        | error te => simp [hm, hx, traceEvents]
        | ok tr =>
          cases hrec : finishCalls execTool rest with
          | mk tail err =>
            rw [hrec] at ih
            simp only [hm, hx, hrec, traceEvents, List.filterMap_cons] at ih ⊢
            simpa using ih

/-- No loop step fabricates a `UsageStats` breaking the sum invariant:
any `CompletionFinished` it yields carries `total = prompt + completion`. -/
theorem usage_total_stepEvent (execTool : ToolCall → Except ToolFailure ToolResult)
    (acc : Progress) (e : LLMEvent) (r : String) (u : UsageStats)
    (hmem : StreamEvent.completionFinished r u ∈ outEvents (stepEvent execTool acc e)) :
    u.total_tokens = u.prompt_tokens + u.completion_tokens := by
  cases e with
  | textDelta c => simp [stepEvent, outEvents] at hmem
  | toolCallDelta i id nm ch =>
    rcases id with _ | i0 <;> rcases ch with _ | c0
    · simp [stepEvent, outEvents] at hmem
    · by_cases hc : c0 = ""
      · simp [stepEvent, outEvents, hc] at hmem
      · cases hg : Progress.getItem acc i with
        | none => simp [stepEvent, outEvents, hc, hg] at hmem
        | some entry => simp [stepEvent, outEvents, hc, hg] at hmem
    · simp [stepEvent, outEvents] at hmem
    · by_cases hc : c0 = ""
      · simp [stepEvent, outEvents, hc] at hmem
      · cases hg : Progress.getItem (acc.setItem i ⟨i0, nm.getD "", ""⟩) i with
        | none => simp [stepEvent, outEvents, hc, hg] at hmem
        | some entry => simp [stepEvent, outEvents, hc, hg] at hmem
  | finished fr p c =>
    have hnc := no_completion_in_finish execTool (acc.map (fun kv => kv.2)) r u
    cases hfc : finishCalls execTool (acc.map (fun kv => kv.2)) with
    | mk steps err =>
      rw [hfc] at hnc
      cases err with
      | some e2 =>
        simp only [stepEvent, hfc, outEvents] at hmem
        exact absurd hmem hnc
      | none =>
        simp only [stepEvent, hfc, outEvents] at hmem
        rcases List.mem_append.mp hmem with h | h
        · exact absurd h hnc
        · simp at h
          rw [h.2]

/-- Every `CompletionFinished` the orchestrator ever yields satisfies the
sum invariant. -/
theorem usage_total_runEvents (execTool : ToolCall → Except ToolFailure ToolResult)
    (es : List LLMEvent) (acc : Progress) (r : String) (u : UsageStats)
    (hmem : StreamEvent.completionFinished r u ∈ (runEvents execTool acc es).1) :
    u.total_tokens = u.prompt_tokens + u.completion_tokens := by
  induction es generalizing acc with
  | nil => simp [runEvents] at hmem
  | cons e rest ih =>
    simp only [runEvents] at hmem
    cases hse : stepEvent execTool acc e with
    | error p =>
      rw [hse] at hmem
      dsimp only at hmem
      exact usage_total_stepEvent execTool acc e r u (by simp [outEvents, hse, hmem])
    | ok p =>
      rw [hse] at hmem
      dsimp only at hmem
      rcases List.mem_append.mp hmem with h | h
      · exact usage_total_stepEvent execTool acc e r u (by simp [outEvents, hse, h])
      · exact ih p.2 h

/-- C9: the `UsageStats` type itself enforces nothing — every combination
of the three fields is constructible, including ones with
`total ≠ prompt + completion`; the sum relation holds for the instances
the orchestrator constructs. -/
theorem claim_C9 :
    (∀ p c t : Int, ∃ u : UsageStats,
        u.prompt_tokens = p ∧ u.completion_tokens = c ∧ u.total_tokens = t)
    ∧ (∃ u : UsageStats, u.total_tokens ≠ u.prompt_tokens + u.completion_tokens)
    ∧ (∀ (execTool : ToolCall → Except ToolFailure ToolResult)
        (es : List LLMEvent) (r : String) (u : UsageStats),
        StreamEvent.completionFinished r u ∈ (useCaseExecute execTool es).1 →
        u.total_tokens = u.prompt_tokens + u.completion_tokens) := by
  refine ⟨fun p c t => ⟨⟨p, c, t⟩, rfl, rfl, rfl⟩, ⟨⟨0, 0, 5⟩, by simp⟩, ?_⟩
  exact fun execTool es r u hmem => usage_total_runEvents execTool es [] r u hmem

/-- C10: `ToolResult` construction fails exactly when `call_id` is empty;
in contrast with `ToolCall` (which rejects an empty id and an empty name),
a `ToolResult` with an empty tool name is accepted. -/
theorem claim_C10 :
    (∀ (call_id name : String) (result : Jx),
        (∃ e, ToolResult.make call_id name result = .error e) ↔ call_id = "")
    ∧ (∀ (call_id : String) (result : Jx), call_id ≠ "" →
        ToolResult.make call_id "" result = .ok ⟨call_id, "", result⟩)
    ∧ (∀ (name : String) (args : Jx), ∃ e, ToolCall.make "" name args = .error e)
    ∧ (∀ (id : String) (args : Jx), id ≠ "" →
        ∃ e, ToolCall.make id "" args = .error e) := by
  refine ⟨fun call_id name result => ?_, fun call_id result h => ?_,
    fun name args => ⟨_, rfl⟩, fun id args h => ?_⟩
  · constructor
    · rintro ⟨e, he⟩
      by_contra hne
      simp [ToolResult.make, hne] at he
    · intro h
      exact ⟨"ToolResult call_id cannot be empty", by simp [ToolResult.make, h]⟩
  · simp [ToolResult.make, h]
  · exact ⟨"ToolCall name cannot be empty", by simp [ToolCall.make, h]⟩

/-- Witness for C9's third conjunct at a concrete stream. -/
theorem claim_C9_witness :
    (⟨10, 5, 10 + 5⟩ : UsageStats).total_tokens
      = (⟨10, 5, 10 + 5⟩ : UsageStats).prompt_tokens
        + (⟨10, 5, 10 + 5⟩ : UsageStats).completion_tokens :=
  claim_C9.2.2 okExec [.textDelta "Hi", .finished "stop" 10 5] "stop" ⟨10, 5, 10 + 5⟩
    (by rw [show (useCaseExecute okExec [.textDelta "Hi", .finished "stop" 10 5]).1
          = [.textDelta "Hi", .completionFinished "stop" ⟨10, 5, 10 + 5⟩] from rfl]
        simp)

/-- Witness for C10 at concrete values. -/
theorem claim_C10_witness :
    ((∃ e, ToolResult.make "" "t" Jx.null = .error e) ↔ ("" : String) = "")
    ∧ ToolResult.make "c1" "" Jx.null = .ok ⟨"c1", "", Jx.null⟩
    ∧ (∃ e, ToolCall.make "" "t" Jx.null = .error e)
    ∧ (∃ e, ToolCall.make "c1" "" Jx.null = .error e) :=
  ⟨claim_C10.1 "" "t" Jx.null, claim_C10.2.1 "c1" Jx.null (by simp),
   claim_C10.2.2.1 "t" Jx.null, claim_C10.2.2.2 "c1" Jx.null (by simp)⟩

/-! ## Correctness of the JSON codec on the encoder's image -/

/-- `true` when the input does not begin with a decimal digit (so a number
literal just before it cannot absorb it). -/
def noDigHead : List Char → Bool
  | [] => true
  | c :: _ => !isDig c

theorem decDigit_isDig (d : Nat) (h : d < 10) : isDig (decDigit d) = true := by
  interval_cases d <;> rfl

theorem decDigit_toNat (d : Nat) (h : d < 10) : (decDigit d).toNat - 48 = d := by
  interval_cases d <;> rfl

theorem natChars_ne_nil (n : Nat) : natChars n ≠ [] := by
  rw [natChars]
  split
  · simp
  · simp

theorem natChars_digits (n : Nat) : ∀ c ∈ natChars n, isDig c = true := by
  induction n using Nat.strong_induction_on with
  | _ n ih =>
    rw [natChars]
    split
    · next h => simpa using decDigit_isDig n h
    · next h =>
      intro c hc
      rcases List.mem_append.mp hc with h1 | h1
      · exact ih (n / 10) (Nat.div_lt_self (by omega) (by omega)) c h1
      · simp at h1
        subst h1
        exact decDigit_isDig (n % 10) (Nat.mod_lt _ (by omega))

theorem natChars_cons (n : Nat) :
    ∃ c t, natChars n = c :: t ∧ isDig c = true := by
  obtain ⟨c, t, h⟩ := List.exists_cons_of_ne_nil (natChars_ne_nil n)
  exact ⟨c, t, h, natChars_digits n c (h ▸ List.mem_cons_self c t)⟩

theorem foldl_natChars (n : Nat) : ∀ acc : Nat,
    (natChars n).foldl (fun a c => a * 10 + (c.toNat - 48)) acc
      = acc * 10 ^ (natChars n).length + n := by
  induction n using Nat.strong_induction_on with
  | _ n ih =>
    intro acc
    rw [natChars]
    split
    · next h =>
      simp [List.foldl, decDigit_toNat n h]
    · next h =>
      rw [List.foldl_append]
      rw [ih (n / 10) (Nat.div_lt_self (by omega) (by omega))]
      simp only [List.foldl, List.length_append, List.length_cons, List.length_nil]
      rw [decDigit_toNat (n % 10) (Nat.mod_lt _ (by omega))]
      have hpow : 10 ^ ((natChars (n / 10)).length + (0 + 1))
          = 10 ^ (natChars (n / 10)).length * 10 := by ring
      rw [hpow, ← Nat.mul_assoc]
      have := Nat.div_add_mod n 10
      set K := acc * 10 ^ (natChars (n / 10)).length
      omega

theorem digitsVal_natChars (n : Nat) : digitsVal (natChars n) = n := by
  simpa [digitsVal] using foldl_natChars n 0

theorem splitDigits_exact (ds : List Char) (rest : List Char)
    (hds : ∀ c ∈ ds, isDig c = true) (hrest : noDigHead rest = true) :
    splitDigits (ds ++ rest) = (ds, rest) := by
  induction ds with
  | nil =>
    cases rest with
    | nil => rfl
    | cons c t =>
      simp only [noDigHead, Bool.not_eq_true'] at hrest
      simp [splitDigits, hrest]
  | cons c t ih =>
    have hc := hds c (by simp)
    simp [splitDigits, hc, ih (fun d hd => hds d (by simp [hd])), hrest]

/-- Properties of a digit character that steer the parser's dispatch. -/
theorem isDig_props (c : Char) (h : isDig c = true) :
    c ≠ '-' ∧ isJsonWs c = false ∧ c ≠ ']' ∧ c ≠ '"' ∧ c ≠ '[' ∧ c ≠ '{'
      ∧ c ≠ 't' ∧ c ≠ 'f' ∧ c ≠ 'n' ∧ c ≠ '}' := by
  refine ⟨?_, ?_, ?_, ?_, ?_, ?_, ?_, ?_, ?_, ?_⟩
  all_goals first
  | (intro heq; subst heq; exact absurd h (by decide))
  | (by_contra hws
     simp only [Bool.not_eq_false] at hws
     have hcases : ((c = ' ' ∨ c = '\t') ∨ c = '\n') ∨ c = '\r' := by
       simpa [isJsonWs] using hws
     rcases hcases with ((rfl | rfl) | rfl) | rfl <;> exact absurd h (by decide))

theorem readNumber_intChars (i : Int) (rest : List Char)
    (hrest : noDigHead rest = true) :
    readNumber (intChars i ++ rest) = some (.num i, rest) := by
  by_cases hneg : i < 0
  · have hi : intChars i = '-' :: natChars i.natAbs := by simp [intChars, hneg]
    rw [hi]
    simp only [List.cons_append, readNumber, if_pos rfl,
      splitDigits_exact _ _ (natChars_digits _) hrest]
    rw [if_neg (natChars_ne_nil _), digitsVal_natChars]
    have hqa : ((i.natAbs : Int)) = -i := Int.ofNat_natAbs_of_nonpos (by omega)
    rw [hqa, neg_neg]
    simp
  · have hin : intChars i = natChars i.toNat := by simp [intChars, hneg]
    obtain ⟨c, t, hct, hdig⟩ := natChars_cons i.toNat
    have hio : intChars i ++ rest = c :: (t ++ rest) := by
      rw [hin, hct]; simp
    rw [hio]
    simp only [readNumber, if_neg (isDig_props c hdig).1]
    have hsd : splitDigits (c :: (t ++ rest)) = (natChars i.toNat, rest) := by
      rw [show c :: (t ++ rest) = (natChars i.toNat) ++ rest by rw [hct]; simp]
      exact splitDigits_exact _ _ (natChars_digits _) hrest
    simp only [hsd]
    rw [if_neg (natChars_ne_nil _), digitsVal_natChars,
      Int.toNat_of_nonneg (by omega)]

theorem hexVal_hexDigit (d : Nat) (h : d < 16) : hexVal (hexDigit d) = some d := by
  interval_cases d <;> rfl

/-- A `Char` always holds a Unicode scalar value: below the surrogate
range, or past it and below `0x110000`. -/
theorem char_valid (c : Char) :
    c.toNat < 0xd800 ∨ 0xe000 ≤ c.toNat ∧ c.toNat < 0x110000 := by
  have hv := c.valid
  simp only [UInt32.isValidChar, Nat.isValidChar, Char.toNat] at hv
  exact hv

/-- Characters surviving raw f-string interpolation into a JSON string
literal: no quote, no backslash, no control character. -/
def rawChar (c : Char) : Prop := c ≠ '"' ∧ c ≠ '\\' ∧ 32 ≤ c.toNat

instance (c : Char) : Decidable (rawChar c) := by
  unfold rawChar
  infer_instance

/-- A string whose raw interpolation decodes back to itself. -/
def rawSafe (s : String) : Prop := ∀ c ∈ s.data, rawChar c

instance (s : String) : Decidable (rawSafe s) := by
  unfold rawSafe
  infer_instance

/-- One decoding step: the closing quote. -/
theorem readStringBody_closeQuote (rest : List Char) :
    readStringBody ('"' :: rest) = some ([], rest) := by
  rw [readStringBody.eq_def]
  rfl

/-- One decoding step: an unescaped printable character. -/
theorem readStringBody_plain (c : Char) (t : List Char)
    (hq : c ≠ '"') (hb : c ≠ '\\') (hge : 32 ≤ c.toNat) :
    readStringBody (c :: t) = (readStringBody t).map (fun p => (c :: p.1, p.2)) := by
  rw [readStringBody.eq_def]
  simp only [if_neg hq, if_neg hb, if_neg (show ¬ c.toNat < 32 by omega)]

/-- One decoding step: a `\uXXXX` escape whose value is no high
surrogate. -/
theorem readStringBody_uEsc (h1 h2 h3 h4 : Char) (t : List Char)
    (a b c2 d : Nat) (ha : hexVal h1 = some a) (hb : hexVal h2 = some b)
    (hc : hexVal h3 = some c2) (hd : hexVal h4 = some d)
    (hns : ¬ (0xd800 ≤ ((a * 16 + b) * 16 + c2) * 16 + d
        ∧ ((a * 16 + b) * 16 + c2) * 16 + d < 0xdc00)) :
    readStringBody ('\\' :: 'u' :: h1 :: h2 :: h3 :: h4 :: t)
      = (readStringBody t).map
          (fun p => (Char.ofNat (((a * 16 + b) * 16 + c2) * 16 + d) :: p.1, p.2)) := by
  rw [readStringBody.eq_def]
  simp only [readHighU, ha, hb, hc, hd]
  simp [hns]

/-- One decoding step: a `\uXXXX` surrogate pair joins into one code
point. -/
theorem readStringBody_uPair (h1 h2 h3 h4 h5 h6 h7 h8 : Char) (t : List Char)
    (a b c2 d a2 b2 c3 d2 : Nat)
    (ha : hexVal h1 = some a) (hb : hexVal h2 = some b)
    (hc : hexVal h3 = some c2) (hd : hexVal h4 = some d)
    (ha2 : hexVal h5 = some a2) (hb2 : hexVal h6 = some b2)
    (hc2 : hexVal h7 = some c3) (hd2 : hexVal h8 = some d2)
    (hhi : 0xd800 ≤ ((a * 16 + b) * 16 + c2) * 16 + d
        ∧ ((a * 16 + b) * 16 + c2) * 16 + d < 0xdc00)
    (hlo : 0xdc00 ≤ ((a2 * 16 + b2) * 16 + c3) * 16 + d2
        ∧ ((a2 * 16 + b2) * 16 + c3) * 16 + d2 < 0xe000) :
    readStringBody ('\\' :: 'u' :: h1 :: h2 :: h3 :: h4
        :: '\\' :: 'u' :: h5 :: h6 :: h7 :: h8 :: t)
      = (readStringBody t).map
          (fun p => (Char.ofNat (0x10000
              + (((a * 16 + b) * 16 + c2) * 16 + d - 0xd800) * 0x400
              + (((a2 * 16 + b2) * 16 + c3) * 16 + d2 - 0xdc00)) :: p.1, p.2)) := by
  rw [readStringBody.eq_def]
  simp only [readHighU, ha, hb, hc, hd]
  rw [if_pos hhi]
  simp only [readLowU, ha2, hb2, hc2, hd2]
  simp [hlo]

/-- Decoding a raw-interpolated safe string consumes it up to the closing
quote. -/
theorem readStringBody_raw (cs : List Char) (rest : List Char)
    (h : ∀ c ∈ cs, rawChar c) :
    readStringBody (cs ++ '"' :: rest) = some (cs, rest) := by
  induction cs with
  | nil => simpa using readStringBody_closeQuote rest
  | cons c t ih =>
    obtain ⟨hq, hb, hc⟩ := h c (by simp)
    rw [List.cons_append, readStringBody_plain c _ hq hb hc,
      ih (fun d hd => h d (by simp [hd]))]
    rfl

/-- Decoding an encoder-escaped string body recovers it exactly, for every
string. -/
theorem readStringBody_escBody (cs : List Char) (rest : List Char) :
    readStringBody (escBody cs ++ '"' :: rest) = some (cs, rest) := by
  induction cs with
  | nil => simpa [escBody] using readStringBody_closeQuote rest
  | cons c t ih =>
    have htail := ih
    have hflat : escBody (c :: t) ++ '"' :: rest
        = escChar c ++ (escBody t ++ '"' :: rest) := by
      simp [escBody]
    rw [hflat]
    by_cases h1 : c = '"'
    · subst h1
      rw [show escChar '"' = ['\\', '"'] from rfl, List.cons_append, List.cons_append,
        readStringBody.eq_def]
      simp [htail]
    · by_cases h2 : c = '\\'
      · subst h2
        rw [show escChar '\\' = ['\\', '\\'] from rfl, List.cons_append,
          List.cons_append, readStringBody.eq_def]
        simp [htail]
      · by_cases h3 : c = '\n'
        · subst h3
          rw [show escChar '\n' = ['\\', 'n'] from rfl, List.cons_append,
            List.cons_append, readStringBody.eq_def]
          simp [htail]
        · by_cases h4 : c = '\t'
          · subst h4
            rw [show escChar '\t' = ['\\', 't'] from rfl, List.cons_append,
              List.cons_append, readStringBody.eq_def]
            simp [htail]
          · by_cases h5 : c = '\r'
            · subst h5
              rw [show escChar '\r' = ['\\', 'r'] from rfl, List.cons_append,
                List.cons_append, readStringBody.eq_def]
              simp [htail]
            · by_cases h6 : c.toNat = 8
              · have hc8 : c = Char.ofNat 8 := by rw [← h6, Char.ofNat_toNat]
                have hesc : escChar c = ['\\', 'b'] := by
                  simp [escChar, h1, h2, h3, h4, h5, h6]
                rw [hesc, List.cons_append, List.cons_append, readStringBody.eq_def]
                simp [htail, hc8]
              · by_cases h7 : c.toNat = 12
                · have hc12 : c = Char.ofNat 12 := by rw [← h7, Char.ofNat_toNat]
                  have hesc : escChar c = ['\\', 'f'] := by
                    simp [escChar, h1, h2, h3, h4, h5, h6, h7]
                  rw [hesc, List.cons_append, List.cons_append, readStringBody.eq_def]
                  simp [htail, hc12]
                · by_cases h8 : c.toNat < 32 ∨ 126 < c.toNat
                  · have hvalid := char_valid c
                    by_cases hbig : c.toNat < 0x10000
                    · have hesc : escChar c = '\\' :: 'u' :: hex4 c.toNat := by
                        simp only [escChar, if_neg h1, if_neg h2, if_neg h3, if_neg h4,
                          if_neg h5, if_neg h6, if_neg h7]
                        rw [if_pos, if_pos hbig]
                        rcases h8 with h8 | h8 <;> simp [h8]
                      rw [hesc,
                        show ('\\' :: 'u' :: hex4 c.toNat) ++ (escBody t ++ '"' :: rest)
                          = '\\' :: 'u' :: hexDigit (c.toNat / 4096 % 16)
                            :: hexDigit (c.toNat / 256 % 16) :: hexDigit (c.toNat / 16 % 16)
                            :: hexDigit (c.toNat % 16) :: (escBody t ++ '"' :: rest)
                          from by simp [hex4]]
                      rw [readStringBody_uEsc _ _ _ _ _ _ _ _ _
                        (hexVal_hexDigit _ (by omega)) (hexVal_hexDigit _ (by omega))
                        (hexVal_hexDigit _ (by omega)) (hexVal_hexDigit _ (by omega))
                        (by omega), htail]
                      have hval : ((c.toNat / 4096 % 16 * 16 + c.toNat / 256 % 16) * 16
                          + c.toNat / 16 % 16) * 16 + c.toNat % 16 = c.toNat := by
                        omega
                      simp [hval, Char.ofNat_toNat]
                    · have hesc : escChar c
                          = ('\\' :: 'u' :: hex4 (0xd800 + (c.toNat - 0x10000) / 0x400))
                            ++ ('\\' :: 'u'
                              :: hex4 (0xdc00 + (c.toNat - 0x10000) % 0x400)) := by
                        simp only [escChar, if_neg h1, if_neg h2, if_neg h3, if_neg h4,
                          if_neg h5, if_neg h6, if_neg h7]
                        rw [if_pos, if_neg hbig]
                        rcases h8 with h8 | h8 <;> simp [h8]
                      rw [hesc,
                        show (('\\' :: 'u' :: hex4 (0xd800 + (c.toNat - 0x10000) / 0x400))
                            ++ ('\\' :: 'u' :: hex4 (0xdc00 + (c.toNat - 0x10000) % 0x400)))
                            ++ (escBody t ++ '"' :: rest)
                          = '\\' :: 'u'
                            :: hexDigit ((0xd800 + (c.toNat - 0x10000) / 0x400) / 4096 % 16)
                            :: hexDigit ((0xd800 + (c.toNat - 0x10000) / 0x400) / 256 % 16)
                            :: hexDigit ((0xd800 + (c.toNat - 0x10000) / 0x400) / 16 % 16)
                            :: hexDigit ((0xd800 + (c.toNat - 0x10000) / 0x400) % 16)
                            :: '\\' :: 'u'
                            :: hexDigit ((0xdc00 + (c.toNat - 0x10000) % 0x400) / 4096 % 16)
                            :: hexDigit ((0xdc00 + (c.toNat - 0x10000) % 0x400) / 256 % 16)
                            :: hexDigit ((0xdc00 + (c.toNat - 0x10000) % 0x400) / 16 % 16)
                            :: hexDigit ((0xdc00 + (c.toNat - 0x10000) % 0x400) % 16)
                            :: (escBody t ++ '"' :: rest)
                          from by simp [hex4]]
                      rw [readStringBody_uPair _ _ _ _ _ _ _ _ _ _ _ _ _ _ _ _ _
                        (hexVal_hexDigit _ (by omega)) (hexVal_hexDigit _ (by omega))
                        (hexVal_hexDigit _ (by omega)) (hexVal_hexDigit _ (by omega))
                        (hexVal_hexDigit _ (by omega)) (hexVal_hexDigit _ (by omega))
                        (hexVal_hexDigit _ (by omega)) (hexVal_hexDigit _ (by omega))
                        (by constructor <;> omega) (by constructor <;> omega), htail]
                      have hval : 0x10000
                          + ((((0xd800 + (c.toNat - 0x10000) / 0x400) / 4096 % 16 * 16
                              + (0xd800 + (c.toNat - 0x10000) / 0x400) / 256 % 16) * 16
                              + (0xd800 + (c.toNat - 0x10000) / 0x400) / 16 % 16) * 16
                              + (0xd800 + (c.toNat - 0x10000) / 0x400) % 16 - 0xd800) * 0x400
                          + ((((0xdc00 + (c.toNat - 0x10000) % 0x400) / 4096 % 16 * 16
                              + (0xdc00 + (c.toNat - 0x10000) % 0x400) / 256 % 16) * 16
                              + (0xdc00 + (c.toNat - 0x10000) % 0x400) / 16 % 16) * 16
                              + (0xdc00 + (c.toNat - 0x10000) % 0x400) % 16 - 0xdc00)
                          = c.toNat := by
                        omega
                      simp [hval, Char.ofNat_toNat]
                  · push_neg at h8
                    have hesc : escChar c = [c] := by
                      simp only [escChar, if_neg h1, if_neg h2, if_neg h3, if_neg h4,
                        if_neg h5, if_neg h6, if_neg h7]
                      rw [if_neg]
                      simp
                      omega
                    rw [hesc, show [c] ++ (escBody t ++ '"' :: rest)
                        = c :: (escBody t ++ '"' :: rest) from by simp,
                      readStringBody_plain c _ h1 h2 (by omega), htail]
                    rfl

/-- Encoded values start with a character that is neither whitespace nor a
closing bracket. -/
theorem dumpChars_head (j : Jx) :
    ∃ c t, dumpChars j = c :: t ∧ isJsonWs c = false ∧ c ≠ ']' ∧ c ≠ '}' := by
  cases j with
  | null =>
    exact ⟨'n', ['u', 'l', 'l'], by simp [dumpChars], by decide, by decide, by decide⟩
  | bool b =>
    cases b with
    | true =>
      exact ⟨'t', ['r', 'u', 'e'], by simp [dumpChars], by decide, by decide, by decide⟩
    | false =>
      exact ⟨'f', ['a', 'l', 's', 'e'], by simp [dumpChars], by decide, by decide,
        by decide⟩
  | str s =>
    exact ⟨'"', escBody s.data ++ ['"'], by simp [dumpChars], by decide, by decide,
      by decide⟩
  | num n =>
    by_cases hneg : n < 0
    · exact ⟨'-', natChars n.natAbs, by simp [dumpChars, intChars, hneg],
        by decide, by decide, by decide⟩
    · obtain ⟨c, t, hct, hdig⟩ := natChars_cons n.toNat
      have hp := isDig_props c hdig
      exact ⟨c, t, by simp [dumpChars, intChars, hneg, hct], hp.2.1, hp.2.2.1,
        hp.2.2.2.2.2.2.2.2.2⟩
  | arr xs =>
    cases xs with
    | nil => exact ⟨'[', [']'], by simp [dumpChars], by decide, by decide, by decide⟩
    | cons x t =>
      exact ⟨'[', dumpChars x ++ (dumpElements t ++ [']']), by simp [dumpChars],
        by decide, by decide, by decide⟩
  | obj ms =>
    cases ms with
    | nil => exact ⟨'{', ['}'], by simp [dumpChars], by decide, by decide, by decide⟩
    | cons kv t =>
      obtain ⟨k, v⟩ := kv
      exact ⟨'{', '"' :: (escBody k.data ++ '"' :: ':' :: ' '
          :: (dumpChars v ++ (dumpMembers t ++ ['}']))),
        by simp [dumpChars], by decide, by decide, by decide⟩

theorem dropWs_cons_not (c : Char) (t : List Char) (h : isJsonWs c = false) :
    dropWs (c :: t) = c :: t := by
  simp [dropWs, h]

/-- `dropWs` is the identity in front of any encoded value. -/
theorem dropWs_dump (j : Jx) (x : List Char) :
    dropWs (dumpChars j ++ x) = dumpChars j ++ x := by
  obtain ⟨c, t, hct, hws, _, _⟩ := dumpChars_head j
  rw [hct, List.cons_append, dropWs_cons_not _ _ hws]

/-- Structure eta for strings. -/
theorem string_mk_data (s : String) : String.mk s.data = s := rfl

/-- `readValue` dispatch: a string literal. -/
theorem readValue_str (fuel : Nat) (body : List Char) :
    readValue (fuel + 1) ('"' :: body)
      = (readStringBody body).map (fun p => (.str (String.mk p.1), p.2)) := by
  simp [readValue]

/-- `readValue` dispatch: a non-empty array. -/
theorem readValue_arr_go (fuel : Nat) (c2 : Char) (r2 : List Char) (h : c2 ≠ ']') :
    readValue (fuel + 1) ('[' :: c2 :: r2)
      = (readElements fuel (c2 :: r2)).map (fun p => (.arr p.1, p.2)) := by
  simp [readValue, h]

/-- `readValue` dispatch: a non-empty object. -/
theorem readValue_obj_go (fuel : Nat) (c2 : Char) (r2 : List Char) (h : c2 ≠ '}') :
    readValue (fuel + 1) ('{' :: c2 :: r2)
      = (readMembers fuel (c2 :: r2)).map (fun p => (.obj p.1, p.2)) := by
  simp [readValue, h]

/-- `readValue` dispatch: a number. -/
theorem readValue_num_dispatch (fuel : Nat) (c0 : Char) (t : List Char)
    (h : isDig c0 = true ∨ c0 = '-') :
    readValue (fuel + 1) (c0 :: t) = readNumber (c0 :: t) := by
  rcases h with h | h
  · obtain ⟨_, _, _, hq, hbk, hbc, ht, hf, hn, _⟩ := isDig_props c0 h
    simp [readValue, hq, hbk, hbc, ht, hf, hn]
  · subst h
    simp [readValue]

theorem dropWs_space (z : List Char) : dropWs (' ' :: z) = dropWs z := rfl

theorem noDigHead_elements (xs : List Jx) (rest : List Char) :
    noDigHead (dumpElements xs ++ ']' :: rest) = true := by
  cases xs with
  | nil =>
    rw [show dumpElements [] = [] from by simp [dumpElements]]
    rfl
  | cons y ys =>
    rw [show dumpElements (y :: ys) ++ ']' :: rest
        = ',' :: (' ' :: (dumpChars y ++ (dumpElements ys ++ ']' :: rest)))
      from by simp [dumpElements]]
    rfl

theorem noDigHead_members (ms : List (String × Jx)) (rest : List Char) :
    noDigHead (dumpMembers ms ++ '}' :: rest) = true := by
  cases ms with
  | nil =>
    rw [show dumpMembers [] = [] from by simp [dumpMembers]]
    rfl
  | cons kv ms2 =>
    obtain ⟨k2, v2⟩ := kv
    rw [show dumpMembers ((k2, v2) :: ms2) ++ '}' :: rest
        = ',' :: (' ' :: ('"' :: (escBody k2.data ++ '"' :: ':' :: ' '
            :: (dumpChars v2 ++ (dumpMembers ms2 ++ '}' :: rest)))))
      from by simp [dumpMembers]]
    rfl

/-- The head of an encoded integer steers the parser to the number
branch. -/
theorem intChars_head (n : Int) :
    ∃ c0 t0, intChars n = c0 :: t0 ∧ (isDig c0 = true ∨ c0 = '-') := by
  by_cases hneg : n < 0
  · exact ⟨'-', natChars n.natAbs, by simp [intChars, hneg], .inr rfl⟩
  · obtain ⟨c, t, hct, hdig⟩ := natChars_cons n.toNat
    exact ⟨c, t, by simp [intChars, hneg, hct], .inl hdig⟩

/-- Continuation of `readElements` after its leading value, comma case. -/
theorem readElements_comma (f : Nat) (cs : List Char) (v : Jx) (z : List Char)
    (hval : readValue f cs = some (v, ',' :: z)) :
    readElements (f + 1) cs
      = (readElements f (dropWs z)).map (fun p => (v :: p.1, p.2)) := by
  simp only [readElements, hval]

/-- Continuation of `readElements` after its leading value, closing case. -/
theorem readElements_close (f : Nat) (cs : List Char) (v : Jx) (z : List Char)
    (hval : readValue f cs = some (v, ']' :: z)) :
    readElements (f + 1) cs = some ([v], z) := by
  simp only [readElements, hval]

/-- Continuation of `readMembers` after one full member, closing case. -/
theorem readMembers_last (f : Nat) (body : List Char) (key : List Char)
    (z : List Char) (v : Jx) (r4 : List Char)
    (hkey : readStringBody body = some (key, ':' :: z))
    (hval : readValue f (dropWs z) = some (v, '}' :: r4)) :
    readMembers (f + 1) ('"' :: body) = some ([(String.mk key, v)], r4) := by
  simp only [readMembers, hkey, hval]

/-- Continuation of `readMembers` after one full member, comma case. -/
theorem readMembers_cont (f : Nat) (body : List Char) (key : List Char)
    (z : List Char) (v : Jx) (r4 : List Char)
    (hkey : readStringBody body = some (key, ':' :: z))
    (hval : readValue f (dropWs z) = some (v, ',' :: r4)) :
    readMembers (f + 1) ('"' :: body)
      = (readMembers f (dropWs r4)).map
          (fun p => ((String.mk key, v) :: p.1, p.2)) := by
  simp only [readMembers, hkey, hval]

mutual

/-- Decoding any encoded value recovers it exactly, given enough fuel and
a follower that does not extend a number literal. -/
theorem readValue_dump : ∀ (j : Jx) (fuel : Nat) (rest : List Char),
    (dumpChars j).length < fuel → noDigHead rest = true →
    readValue fuel (dumpChars j ++ rest) = some (j, rest)
  | .null, fuel, rest, hf, _ => by
    cases fuel with
    | zero => simp [dumpChars] at hf
    | succ f =>
      rw [show dumpChars .null ++ rest = 'n' :: 'u' :: 'l' :: 'l' :: rest
        from by simp [dumpChars]]
      simp [readValue]
  | .bool true, fuel, rest, hf, _ => by
    cases fuel with
    | zero => simp [dumpChars] at hf
    | succ f =>
      rw [show dumpChars (.bool true) ++ rest = 't' :: 'r' :: 'u' :: 'e' :: rest
        from by simp [dumpChars]]
      simp [readValue]
  | .bool false, fuel, rest, hf, _ => by
    cases fuel with
    | zero => simp [dumpChars] at hf
    | succ f =>
      rw [show dumpChars (.bool false) ++ rest
          = 'f' :: 'a' :: 'l' :: 's' :: 'e' :: rest from by simp [dumpChars]]
      simp [readValue]
  | .num n, fuel, rest, hf, hr => by
    cases fuel with
    | zero => simp [dumpChars] at hf
    | succ f =>
      obtain ⟨c0, t0, hct, hd⟩ := intChars_head n
      rw [show dumpChars (.num n) ++ rest = c0 :: (t0 ++ rest)
        from by simp [dumpChars, hct],
        readValue_num_dispatch f c0 _ hd,
        show c0 :: (t0 ++ rest) = intChars n ++ rest from by rw [hct]; simp,
        readNumber_intChars n rest hr]
  | .str s, fuel, rest, hf, _ => by
    cases fuel with
    | zero => simp [dumpChars] at hf
    | succ f =>
      rw [show dumpChars (.str s) ++ rest
          = '"' :: (escBody s.data ++ '"' :: rest) from by simp [dumpChars],
        readValue_str f _, readStringBody_escBody s.data rest]
      simp [string_mk_data]
  | .arr [], fuel, rest, hf, _ => by
    cases fuel with
    | zero => simp [dumpChars] at hf
    | succ f =>
      rw [show dumpChars (.arr []) ++ rest = '[' :: ']' :: rest
        from by simp [dumpChars]]
      simp [readValue]
  | .arr (x :: xs), fuel, rest, hf, _ => by
    cases fuel with
    | zero => simp [dumpChars] at hf
    | succ f =>
      obtain ⟨c, t, hct, hws, hbr, _⟩ := dumpChars_head x
      have harg : dumpChars (.arr (x :: xs)) ++ rest
          = '[' :: (dumpChars x ++ (dumpElements xs ++ (']' :: rest))) := by
        simp [dumpChars]
      have hlen : (dumpChars x ++ dumpElements xs).length + 1 < f := by
        have h2 : (dumpChars (.arr (x :: xs))).length
            = (dumpChars x).length + (dumpElements xs).length + 2 := by
          simp [dumpChars]
          omega
        simp only [List.length_append]
        omega
      rw [harg,
        show dumpChars x ++ (dumpElements xs ++ (']' :: rest))
          = c :: (t ++ (dumpElements xs ++ (']' :: rest))) from by rw [hct]; simp,
        readValue_arr_go f c _ hbr,
        show c :: (t ++ (dumpElements xs ++ (']' :: rest)))
          = dumpChars x ++ (dumpElements xs ++ ']' :: rest) from by rw [hct]; simp,
        readElements_dump x xs f rest hlen]
      rfl
  | .obj [], fuel, rest, hf, _ => by
    cases fuel with
    | zero => simp [dumpChars] at hf
    | succ f =>
      rw [show dumpChars (.obj []) ++ rest = '{' :: '}' :: rest
        from by simp [dumpChars]]
      simp [readValue]
  | .obj ((k, v) :: ms), fuel, rest, hf, _ => by
    cases fuel with
    | zero => simp [dumpChars] at hf
    | succ f =>
      have harg : dumpChars (.obj ((k, v) :: ms)) ++ rest
          = '{' :: ('"' :: (escBody k.data ++ '"' :: ':' :: ' '
              :: (dumpChars v ++ (dumpMembers ms ++ '}' :: rest)))) := by
        simp [dumpChars]
      have hlen : (escBody k.data).length
          + (dumpChars v ++ dumpMembers ms).length + 4 < f := by
        have h2 : (dumpChars (.obj ((k, v) :: ms))).length
            = (escBody k.data).length + (dumpChars v).length
              + (dumpMembers ms).length + 6 := by
          simp [dumpChars]
          omega
        simp only [List.length_append]
        omega
      rw [harg, readValue_obj_go f '"' _ (by decide),
        readMembers_dump k v ms f rest hlen]
      rfl
termination_by j _ _ _ _ => sizeOf j

/-- Decoding the encoded elements of a non-empty array. -/
theorem readElements_dump : ∀ (x : Jx) (xs : List Jx) (fuel : Nat) (rest : List Char),
    (dumpChars x ++ dumpElements xs).length + 1 < fuel →
    readElements fuel (dumpChars x ++ (dumpElements xs ++ ']' :: rest))
      = some (x :: xs, rest)
  | x, [], fuel, rest, hb => by
    cases fuel with
    | zero => omega
    | succ f =>
      have hval : readValue f (dumpChars x ++ (dumpElements [] ++ ']' :: rest))
          = some (x, ']' :: rest) := by
        rw [show dumpElements ([] : List Jx) ++ ']' :: rest = ']' :: rest
          from by simp [dumpElements]]
        exact readValue_dump x f (']' :: rest)
          (by simp only [List.length_append] at hb; omega) (by rfl)
      exact readElements_close f _ x rest hval
  | x, y :: ys, fuel, rest, hb => by
    cases fuel with
    | zero => omega
    | succ f =>
      have helems : (dumpElements (y :: ys)).length
          = (dumpChars y).length + (dumpElements ys).length + 2 := by
        simp [dumpElements]
      have hval : readValue f (dumpChars x ++ (dumpElements (y :: ys) ++ ']' :: rest))
          = some (x, ',' :: (' ' :: (dumpChars y ++ (dumpElements ys ++ ']' :: rest)))) := by
        rw [show dumpElements (y :: ys) ++ ']' :: rest
            = ',' :: (' ' :: (dumpChars y ++ (dumpElements ys ++ ']' :: rest)))
          from by simp [dumpElements]]
        exact readValue_dump x f _
          (by simp only [List.length_append] at hb; omega) (by rfl)
      rw [readElements_comma f _ x _ hval, dropWs_space, dropWs_dump y,
        readElements_dump y ys f rest
          (by simp only [List.length_append] at hb ⊢; omega)]
      rfl
termination_by x xs _ _ _ => sizeOf x + sizeOf xs

/-- Decoding the encoded members of a non-empty object. -/
theorem readMembers_dump : ∀ (k : String) (v : Jx) (ms : List (String × Jx))
    (fuel : Nat) (rest : List Char),
    (escBody k.data).length + (dumpChars v ++ dumpMembers ms).length + 4 < fuel →
    readMembers fuel ('"' :: (escBody k.data ++ '"' :: ':' :: ' '
        :: (dumpChars v ++ (dumpMembers ms ++ '}' :: rest))))
      = some ((k, v) :: ms, rest)
  | k, v, [], fuel, rest, hb => by
    cases fuel with
    | zero => omega
    | succ f =>
      have hkey : readStringBody (escBody k.data ++ '"' :: ':' :: ' '
          :: (dumpChars v ++ (dumpMembers [] ++ '}' :: rest)))
          = some (k.data, ':' :: ' ' :: (dumpChars v ++ (dumpMembers [] ++ '}' :: rest))) :=
        readStringBody_escBody k.data _
      have hval : readValue f (dropWs (' ' :: (dumpChars v ++ (dumpMembers [] ++ '}' :: rest))))
          = some (v, '}' :: rest) := by
        rw [dropWs_space, show dumpMembers ([] : List (String × Jx)) ++ '}' :: rest
            = '}' :: rest from by simp [dumpMembers], dropWs_dump v]
        exact readValue_dump v f _
          (by simp only [List.length_append] at hb; omega) (by rfl)
      rw [readMembers_last f _ k.data _ v rest hkey hval, string_mk_data]
  | k, v, (k2, v2) :: ms2, fuel, rest, hb => by
    cases fuel with
    | zero => omega
    | succ f =>
      have hmslen : (dumpMembers ((k2, v2) :: ms2)).length
          = (escBody k2.data).length + (dumpChars v2).length
            + (dumpMembers ms2).length + 6 := by
        simp [dumpMembers]
        omega
      have hkey : readStringBody (escBody k.data ++ '"' :: ':' :: ' '
          :: (dumpChars v ++ (dumpMembers ((k2, v2) :: ms2) ++ '}' :: rest)))
          = some (k.data, ':' :: ' '
              :: (dumpChars v ++ (dumpMembers ((k2, v2) :: ms2) ++ '}' :: rest))) :=
        readStringBody_escBody k.data _
      have hval : readValue f (dropWs (' '
          :: (dumpChars v ++ (dumpMembers ((k2, v2) :: ms2) ++ '}' :: rest))))
          = some (v, ',' :: (' ' :: ('"' :: (escBody k2.data ++ '"' :: ':' :: ' '
              :: (dumpChars v2 ++ (dumpMembers ms2 ++ '}' :: rest)))))) := by
        rw [dropWs_space, dropWs_dump v,
          show dumpMembers ((k2, v2) :: ms2) ++ '}' :: rest
            = ',' :: (' ' :: ('"' :: (escBody k2.data ++ '"' :: ':' :: ' '
                :: (dumpChars v2 ++ (dumpMembers ms2 ++ '}' :: rest)))))
          from by simp [dumpMembers]]
        exact readValue_dump v f _
          (by simp only [List.length_append] at hb; omega) (by rfl)
      have hrec : (escBody k2.data).length
          + (dumpChars v2 ++ dumpMembers ms2).length + 4 < f := by
        have h1 := List.length_append (dumpChars v) (dumpMembers ((k2, v2) :: ms2))
        have h2 := List.length_append (dumpChars v2) (dumpMembers ms2)
        omega
      rw [readMembers_cont f _ k.data _ v _ hkey hval, dropWs_space,
        dropWs_cons_not '"' _ (by decide),
        readMembers_dump k2 v2 ms2 f rest hrec,
        string_mk_data]
      rfl
termination_by k v ms _ _ _ => sizeOf v + sizeOf ms

end

/-- `json.loads` is a left inverse of `json.dumps` on every value. -/
theorem loads_dumps (j : Jx) : Jx.loads (Jx.dumps j) = some j := by
  have hdw : dropWs (dumpChars j) = dumpChars j := by
    obtain ⟨c, t, hct, hws, _, _⟩ := dumpChars_head j
    rw [hct, dropWs_cons_not _ _ hws]
  have hrv : readValue ((dumpChars j).length + 1) (dumpChars j) = some (j, []) := by
    have := readValue_dump j ((dumpChars j).length + 1) [] (by omega) (by rfl)
    simpa using this
  simp only [Jx.loads, Jx.dumps, hdw, hrv]
  rfl

/-- Decoding the three raw-interpolated members of a `9:` payload:
`toolCallId` and `toolName` (raw strings) and `args` (encoder output). -/
theorem readMembers_payload (fuel : Nat) (id nm : String) (args : Jx)
    (tail : List Char) (hid : rawSafe id) (hnm : rawSafe nm)
    (hfuel : (dumpChars args).length + 3 < fuel) :
    readMembers fuel ('"' :: ("toolCallId".data ++ '"' :: ':' :: '"'
        :: (id.data ++ ('"' :: ',' :: '"' :: ("toolName".data ++ '"' :: ':' :: '"'
        :: (nm.data ++ ('"' :: ',' :: '"' :: ("args".data ++ '"' :: ':'
        :: (dumpChars args ++ '}' :: tail)))))))))
      = some ([("toolCallId", .str id), ("toolName", .str nm), ("args", args)],
              tail) := by
  cases fuel with
  | zero => omega
  | succ fa =>
    cases fa with
    | zero => omega
    | succ fb =>
      cases fb with
      | zero => omega
      | succ fc =>
        have hkey1 := readStringBody_raw "toolCallId".data
          (':' :: '"' :: (id.data ++ ('"' :: ',' :: '"' :: ("toolName".data
            ++ '"' :: ':' :: '"' :: (nm.data ++ ('"' :: ',' :: '"'
            :: ("args".data ++ '"' :: ':' :: (dumpChars args ++ '}' :: tail))))))))
          (by decide)
        have hval1 : readValue (fc + 1 + 1) (dropWs ('"' :: (id.data
            ++ ('"' :: ',' :: '"' :: ("toolName".data ++ '"' :: ':' :: '"'
            :: (nm.data ++ ('"' :: ',' :: '"' :: ("args".data ++ '"' :: ':'
            :: (dumpChars args ++ '}' :: tail)))))))))
            = some (.str id, ',' :: '"' :: ("toolName".data ++ '"' :: ':' :: '"'
              :: (nm.data ++ ('"' :: ',' :: '"' :: ("args".data ++ '"' :: ':'
              :: (dumpChars args ++ '}' :: tail)))))) := by
          rw [dropWs_cons_not '"' _ (by decide), readValue_str (fc + 1) _,
            readStringBody_raw id.data _ hid]
          simp [string_mk_data]
        rw [readMembers_cont _ _ _ _ _ _ hkey1 hval1,
          dropWs_cons_not '"' _ (by decide)]
        have hkey2 := readStringBody_raw "toolName".data
          (':' :: '"' :: (nm.data ++ ('"' :: ',' :: '"'
            :: ("args".data ++ '"' :: ':' :: (dumpChars args ++ '}' :: tail)))))
          (by decide)
        have hval2 : readValue (fc + 1) (dropWs ('"' :: (nm.data
            ++ ('"' :: ',' :: '"' :: ("args".data ++ '"' :: ':'
            :: (dumpChars args ++ '}' :: tail))))))
            = some (.str nm, ',' :: '"' :: ("args".data ++ '"' :: ':'
              :: (dumpChars args ++ '}' :: tail))) := by
          rw [dropWs_cons_not '"' _ (by decide), readValue_str fc _,
            readStringBody_raw nm.data _ hnm]
          simp [string_mk_data]
        rw [readMembers_cont _ _ _ _ _ _ hkey2 hval2,
          dropWs_cons_not '"' _ (by decide)]
        have hkey3 := readStringBody_raw "args".data
          (':' :: (dumpChars args ++ '}' :: tail)) (by decide)
        have hval3 : readValue fc (dropWs (dumpChars args ++ '}' :: tail))
            = some (args, '}' :: tail) := by
          rw [dropWs_dump args]
          exact readValue_dump args fc _ (by omega) (by rfl)
        rw [readMembers_last _ _ _ _ _ _ hkey3 hval3]
        simp [string_mk_data]

/-- C7 as amended: formatting a `ToolCallCompleted` and JSON-decoding the
payload after the `9:` tag recovers the call id, tool name and argument
structure, for every `ToolCall` whose id and name contain no quote,
backslash or control character (raw f-string interpolation); the arguments
are unrestricted, since they go through the encoder. -/
theorem claim_C7_amended (tc : ToolCall)
    (hid : rawSafe tc.id) (hnm : rawSafe tc.name) :
    decodeAfterTag (format_event (.toolCallCompleted tc))
      = some (.obj [("toolCallId", .str tc.id), ("toolName", .str tc.name),
                    ("args", tc.arguments)]) := by
  have e1 : ("\"toolCallId\":\"".data : List Char)
      = '"' :: ("toolCallId".data ++ ('"' :: ':' :: '"' :: [])) := rfl
  have e2 : ("\",\"toolName\":\"".data : List Char)
      = '"' :: ',' :: '"' :: ("toolName".data ++ ('"' :: ':' :: '"' :: [])) := rfl
  have e3 : ("\",\"args\":".data : List Char)
      = '"' :: ',' :: '"' :: ("args".data ++ ('"' :: ':' :: [])) := rfl
  have hchars : (format_event (.toolCallCompleted tc)).data.drop 2
      = '{' :: '"' :: ("toolCallId".data ++ '"' :: ':' :: '"'
          :: (tc.id.data ++ ('"' :: ',' :: '"' :: ("toolName".data ++ '"' :: ':' :: '"'
          :: (tc.name.data ++ ('"' :: ',' :: '"' :: ("args".data ++ '"' :: ':'
          :: (dumpChars tc.arguments ++ '}' :: '\n' :: [])))))))) := by
    show (formatChars (.toolCallCompleted tc)).drop 2 = _
    simp only [formatChars, e1, e2, e3, List.cons_append, List.nil_append,
      List.append_assoc, List.drop_succ_cons, List.drop_zero]
  have hlens : ("toolCallId".data).length = 10 ∧ ("toolName".data).length = 8
      ∧ ("args".data).length = 4 := by decide
  simp only [decodeAfterTag, hchars]
  have hmkdata : (String.mk ('{' :: '"' :: ("toolCallId".data ++ '"' :: ':' :: '"'
      :: (tc.id.data ++ ('"' :: ',' :: '"' :: ("toolName".data ++ '"' :: ':' :: '"'
      :: (tc.name.data ++ ('"' :: ',' :: '"' :: ("args".data ++ '"' :: ':'
      :: (dumpChars tc.arguments ++ '}' :: '\n' :: [])))))))))).data
      = '{' :: '"' :: ("toolCallId".data ++ '"' :: ':' :: '"'
          :: (tc.id.data ++ ('"' :: ',' :: '"' :: ("toolName".data ++ '"' :: ':' :: '"'
          :: (tc.name.data ++ ('"' :: ',' :: '"' :: ("args".data ++ '"' :: ':'
          :: (dumpChars tc.arguments ++ '}' :: '\n' :: [])))))))) := rfl
  simp only [Jx.loads, hmkdata]
  rw [dropWs_cons_not '{' _ (by decide)]
  rw [readValue_obj_go _ '"' _ (by decide)]
  rw [readMembers_payload _ tc.id tc.name tc.arguments ('\n' :: []) hid hnm
    (by simp only [List.length_cons, List.length_append, hlens.1, hlens.2.1,
          hlens.2.2]
        omega)]
  rfl

/-- C7 counterexample: a valid `ToolCall` whose id contains a quote breaks
the raw f-string interpolation — the payload after `9:` is not valid JSON,
so decoding yields nothing instead of the claimed round-trip. -/
theorem claim_C7_counterexample :
    ToolCall.make "we\"ird" "tool" (.obj []) = .ok ⟨"we\"ird", "tool", .obj []⟩
    ∧ decodeAfterTag
        (format_event (.toolCallCompleted ⟨"we\"ird", "tool", .obj []⟩)) = none := by
  constructor
  · rfl
  · have hd : dumpChars (.obj []) = ['{', '}'] := by simp [dumpChars]
    simp only [decodeAfterTag, format_event, formatChars, hd]
    rfl

/-- Witness for the amended C7 at a concrete tool call whose argument
string holds an astral character (escaped as a surrogate pair). -/
theorem claim_C7_amended_witness :
    decodeAfterTag (format_event (.toolCallCompleted
        ⟨"call_1", "get_weather",
         .obj [("city", .str (String.mk ['S', 'F', Char.ofNat 0x1f600]))]⟩))
      = some (.obj [("toolCallId", .str "call_1"), ("toolName", .str "get_weather"),
                    ("args", .obj [("city",
                      .str (String.mk ['S', 'F', Char.ofNat 0x1f600]))])]) :=
  claim_C7_amended
    ⟨"call_1", "get_weather",
     .obj [("city", .str (String.mk ['S', 'F', Char.ofNat 0x1f600]))]⟩
    (by decide) (by decide)

end ChatCore
